import Mathlib

/-!
Verification of the knowledge-base synchronization core of this repository
(`src/kb_agent/tools.py` and `src/kb_agent/cards.py`) against its
natural-language specification.

The Python functions are shallowly embedded as pure Lean functions:
  * strings are Lean `String`s (sequences of unicode scalar values, matching
    Python `str` for the operations used here);
  * JSON-like Python values (the `judge_meta` dictionaries) are the inductive
    `JVal`; Python `dict`s are association lists with unique keys and
    insertion order, with `get`/`set` mirroring Python semantics;
  * the LLM collaborator is an oracle: one `Except` field per call site
    (a `.error` models the call raising);
  * the file system is a list of (name, content) pairs; a fallible read is
    `Except String String` where the error carries the rendered
    "ExceptionName: message" text Python would interpolate;
  * `sha256` digests are abstracted by an arbitrary function argument where
    an actual digest is computed, and by plain strings where only compared.
-/

set_option maxRecDepth 4000

/-! ## Python string primitives -/

/-- Python whitespace for `str.split()` / `str.strip()` (ASCII part, which is
all the repository's code paths ever produce). -/
def pyIsSpace (c : Char) : Bool :=
  c = ' ' || c = '\t' || c = '\n' || c = '\x0d' || c = '\x0b' || c = '\x0c'

/-- Python `str.lower`, for the character ranges occurring in this code base
(ASCII plus the Cyrillic block used by the fixed Russian phrases). -/
def pyLowerChar (c : Char) : Char :=
  if 'A' ≤ c ∧ c ≤ 'Z' then Char.ofNat (c.toNat + 32)
  else if c.toNat ≥ 0x410 ∧ c.toNat ≤ 0x42F then Char.ofNat (c.toNat + 0x20)
  else if c.toNat = 0x401 then Char.ofNat 0x451
  else c

def pyLower (s : String) : String := ⟨s.data.map pyLowerChar⟩

/-- `list.strip()` on characters: drop whitespace on both ends. -/
def stripChars (l : List Char) : List Char :=
  ((l.dropWhile pyIsSpace).reverse.dropWhile pyIsSpace).reverse

/-- Python `str.strip()`. -/
def pyStrip (s : String) : String := ⟨stripChars s.data⟩

/-- Python `str.split()` (split on whitespace runs, no empty tokens),
worker with an accumulator holding the current word reversed. -/
def splitWsAux : List Char → List Char → List (List Char)
  | [], acc => if acc.isEmpty then [] else [acc.reverse]
  | c :: cs, acc =>
    if pyIsSpace c then
      if acc.isEmpty then splitWsAux cs [] else acc.reverse :: splitWsAux cs []
    else splitWsAux cs (c :: acc)

def splitWsChars (l : List Char) : List (List Char) := splitWsAux l []

def pySplitWs (s : String) : List String := (splitWsChars s.data).map String.mk

/-- `_normalize_ws` from tools.py: `" ".join(s.split())`. -/
def normalize_ws (s : String) : String :=
  ⟨List.intercalate [' '] (splitWsChars s.data)⟩

/-- `needle` occurs contiguously inside `hay`. -/
def isSubChars (needle : List Char) : List Char → Bool
  | [] => needle.isEmpty
  | c :: cs => needle.isPrefixOf (c :: cs) || isSubChars needle cs

/-- Python `a in b` on strings (contiguous substring). -/
def pyInStr (needle hay : String) : Bool := isSubChars needle.data hay.data

/-- Python `str.startswith`. -/
def pyStartsWith (s pre : String) : Bool := pre.data.isPrefixOf s.data

/-- Python `str.rstrip('.')`: drop all trailing dots. -/
def pyRstripDot (s : String) : String :=
  ⟨(s.data.reverse.dropWhile (· = '.')).reverse⟩

/-- `list.rfind(c)`: index of the last occurrence of a character. -/
def pyRfindChar (ch : Char) : List Char → Option Nat
  | [] => none
  | c :: cs =>
    match pyRfindChar ch cs with
    | some i => some (i + 1)
    | none => if c = ch then some 0 else none

/-- Python `s.split(sep)` for a one-character separator (also the splitting
underlying `str.splitlines` as used here: the sources' line scans only care
about newline-separated segments). -/
def splitOnChar (sep : Char) : List Char → List (List Char)
  | [] => [[]]
  | c :: cs =>
    if c = sep then [] :: splitOnChar sep cs
    else
      match splitOnChar sep cs with
      | [] => [[c]]
      | w :: ws => (c :: w) :: ws

/-- Tail following the last occurrence of `m` in a character list: the text
after `text[text.rfind(m) + len(m):]`, or `none` when `rfind` returns -1. -/
def lastOccTail (m : List Char) : List Char → Option (List Char)
  | [] => if m.isEmpty then some [] else none
  | c :: cs =>
    match lastOccTail m cs with
    | some t => some t
    | none => if m.isPrefixOf (c :: cs) then some ((c :: cs).drop m.length) else none

/-! ## JSON-like Python values and dictionaries -/

inductive JVal where
  | jnull : JVal
  | jbool : Bool → JVal
  | jnum : Int → JVal
  | jstr : String → JVal
  | jarr : List JVal → JVal
  | jobj : List (String × JVal) → JVal

/-- Python truthiness of a JSON-like value. -/
def pyTruthy : JVal → Bool
  | .jnull => false
  | .jbool b => b
  | .jnum n => n ≠ 0
  | .jstr s => s ≠ ""
  | .jarr xs => !xs.isEmpty
  | .jobj fs => !fs.isEmpty

mutual
/-- Python `repr` of a JSON-like value (string quoting is modelled without
escape sequences; the code only ever applies `str` to scalars). -/
def pyReprJ : JVal → String
  | .jnull => "None"
  | .jbool b => if b then "True" else "False"
  | .jnum n => toString n
  | .jstr s => "\x27" ++ s ++ "\x27"
  | .jarr xs => "[" ++ pyReprList xs ++ "]"
  | .jobj fs => "\x7b" ++ pyReprFields fs ++ "\x7d"

def pyReprList : List JVal → String
  | [] => ""
  | [v] => pyReprJ v
  | v :: vs => pyReprJ v ++ ", " ++ pyReprList vs

def pyReprFields : List (String × JVal) → String
  | [] => ""
  | [kv] => "\x27" ++ kv.1 ++ "\x27: " ++ pyReprJ kv.2
  | kv :: fs => "\x27" ++ kv.1 ++ "\x27: " ++ pyReprJ kv.2 ++ ", " ++ pyReprFields fs
end

/-- Python `str()` of a JSON-like value. -/
def pyStrJ : JVal → String
  | .jstr s => s
  | v => pyReprJ v

/-- Python `d.get(k)`: value at the (unique) key, if present. -/
def pyDictGet (d : List (String × JVal)) (k : String) : Option JVal :=
  match d.find? (fun e => e.1 = k) with
  | some e => some e.2
  | none => none

/-- Python `d[k] = v`: overwrite in place when the key exists (keeping its
position), append otherwise. -/
def pyDictSet (d : List (String × JVal)) (k : String) (v : JVal) :
    List (String × JVal) :=
  if d.any (fun e => e.1 = k) then
    d.map (fun e => if e.1 = k then (k, v) else e)
  else d ++ [(k, v)]

/-! ## EvidenceSanitizer (`_sanitize_judge_meta`, tools.py lines 310-353) -/

/-- The kept/dropped decision for one element of the `missing` list: a dict
item is kept iff its (stringified, stripped) evidence is non-empty and its
whitespace-normalized form occurs literally in the whitespace-normalized
document; any non-dict item is kept as is. -/
def keepMissingItem (doc_text : String) (item : JVal) : Bool :=
  match item with
  | .jobj fs =>
    let raw := (pyDictGet fs "evidence").getD (.jstr "")
    let raw := if pyTruthy raw then raw else .jstr ""
    let ev := pyStrip (pyStrJ raw)
    ev ≠ "" && pyInStr (normalize_ws ev) (normalize_ws doc_text)
  | _ => true

/-- `judge_meta.get("missing") or []` followed by the `isinstance(.., list)`
check: the list the sanitizer iterates over. -/
def missingInOf (fields : List (String × JVal)) : List JVal :=
  match pyDictGet fields "missing" with
  | some (.jarr xs) => xs
  | _ => []

/-- `isinstance(judge_meta.get("missing"), list)`. -/
def missingIsList (fields : List (String × JVal)) : Bool :=
  match pyDictGet fields "missing" with
  | some (.jarr _) => true
  | _ => false

/-- `_sanitize_judge_meta`: filter hallucinated judge gaps, possibly flip a
negative verdict whose filtered `missing` list came out empty. -/
def sanitize_judge_meta (doc_text : String) (judge_meta : JVal) :
    List (String × JVal) :=
  match judge_meta with
  | .jobj fields =>
    let missing_in : List JVal := missingInOf fields
    let kept := missing_in.filter (keepMissingItem doc_text)
    let removed_count := (missing_in.filter (fun v => !keepMissingItem doc_text v)).length
    let out := pyDictSet fields "missing" (.jarr kept)
    let out :=
      if removed_count ≠ 0 then
        pyDictSet out "missing_sanitized_removed" (.jnum removed_count)
      else out
    let ok_val := pyTruthy ((pyDictGet out "ok").getD (.jbool false))
    if !ok_val && kept.isEmpty && missingIsList fields then
      pyDictSet (pyDictSet out "ok" (.jbool true)) "ok_sanitized_overridden" (.jbool true)
    else out
  | _ =>
    [("ok", .jbool false), ("missing", .jarr [.jstr "judge_meta_not_a_dict"]),
     ("suggested_card_titles", .jarr [])]

/-! ## Cards and the malformed-output check (tools.py lines 394-416) -/

/-- A card draft as returned by the writer (the `CardDraft` pydantic model,
after `model_dump`). -/
structure Card where
  title : String
  description : String
  content_md : String
  key_terms : List String
  entities : List String
deriving DecidableEq

/-- `_FALLBACK_MARKER`. -/
def FALLBACK_MARKER : String := "Краткое описание не сгенерировано"

/-- The fixed hedging-phrase denylist of `_cards_have_generation_error`. -/
def badPhrases : List String :=
  ["требует дополнительного пояснения",
   "требуют дополнительного пояснения",
   "необходимо подробнее описать",
   "нужно подробнее описать",
   "представлены кратко и требуют",
   "требует доработки",
   "нуждается в доработке",
   "недостаточно информации",
   "требует дополнительного уточнения"]

/-- `_cards_have_generation_error`. -/
def cards_have_generation_error (cards : List Card) : Bool :=
  cards.any fun c =>
    pyInStr FALLBACK_MARKER c.description || pyInStr FALLBACK_MARKER c.content_md ||
    (let text := pyLower (c.description ++ "\n" ++ c.content_md)
     badPhrases.any (fun p => pyInStr p text))

/-- Worker for `extract_title` over the document's lines. -/
def extractTitleGo : List String → String → String
  | [], fallback => fallback
  | l :: ls, fallback =>
    let line := pyStrip l
    if pyStartsWith line "# " then pyStrip (⟨line.data.drop 2⟩) else extractTitleGo ls fallback

/-- `extract_title` from cards.py: first `# ` heading, else the fallback. -/
def extract_title (md_text : String) (fallback : String) : String :=
  extractTitleGo ((splitOnChar '\n' md_text.data).map String.mk) fallback

/-! ## Judge (`_judge_once`, `JudgeResult`) -/

/-- One entry of `JudgeResult.missing` (the pydantic `MissingItem`). -/
structure MissingItem where
  what : String
  evidence : String
deriving DecidableEq

/-- The pydantic `JudgeResult` model. -/
structure JudgeResult where
  ok : Bool
  missing : List MissingItem
  suggested_card_titles : List String
deriving DecidableEq

/-- `JudgeResult.model_dump()` as a Python dict. -/
def judgeDump (j : JudgeResult) : List (String × JVal) :=
  [("ok", .jbool j.ok),
   ("missing", .jarr (j.missing.map
      (fun i => .jobj [("what", .jstr i.what), ("evidence", .jstr i.evidence)]))),
   ("suggested_card_titles", .jarr (j.suggested_card_titles.map .jstr))]

/-- `_judge_once`: dump the parsed judge result; when the judge call raises,
substitute the diagnostic not-ok verdict instead of propagating. -/
def judge_once (res : Except String JudgeResult) : List (String × JVal) :=
  match res with
  | .ok j => judgeDump j
  | .error kind =>
    [("ok", .jbool false),
     ("missing", .jarr [.jstr ("judge_parse_error: " ++ kind)]),
     ("suggested_card_titles", .jarr [])]

/-! ## Refinement guidance (tools.py lines 481-503) -/

/-- The parts contributed by one `missing` item to the refinement guidance. -/
def guidancePart (item : JVal) : List String :=
  match item with
  | .jobj fs =>
    let what := pyStrip (pyStrJ ((pyDictGet fs "what").getD (.jstr "")))
    let ev := pyStrip (pyStrJ ((pyDictGet fs "evidence").getD (.jstr "")))
    if what ≠ "" ∧ ev ≠ "" then [what ++ "\n  цитата: " ++ ev]
    else if what ≠ "" then [what]
    else []
  | v => [pyStrJ v]

/-- The guidance string handed to the refinement generation call.  (After
sanitization `missing` and `suggested_card_titles` are always lists, so the
non-list fallbacks below are never reached on the pipeline's inputs.) -/
def buildGuidance (judge_meta : List (String × JVal)) : String :=
  let missing : List JVal :=
    match pyDictGet judge_meta "missing" with
    | some (.jarr xs) => xs
    | _ => []
  let suggested : List JVal :=
    match pyDictGet judge_meta "suggested_card_titles" with
    | some (.jarr xs) => xs
    | _ => []
  let g := ""
  let g :=
    if !missing.isEmpty then
      g ++ "Не покрыто (с цитатами из оригинала):\n- " ++
        String.intercalate "\n- " (missing.flatMap guidancePart) ++ "\n"
    else g
  let g :=
    if !suggested.isEmpty then
      g ++ "Нужно добавить/исправить (заголовки):\n- " ++
        String.intercalate "\n- " (suggested.map pyStrJ) ++ "\n"
    else g
  g ++ "\nСделай правки, опираясь ТОЛЬКО на оригинальный документ. " ++
    "Если какого-то \x27missing\x27 нет в документе — НЕ добавляй это."

/-! ## The synthesis pipeline (`kb_upsert_cards_for_markdown`, tools.py
lines 418-553, LLM-facing part) -/

/-- One external LLM round-trip, as recorded by the pipeline trace:
a writer call (with its optional guidance and optional prior cards) or a
judge call (with the cards under evaluation). -/
inductive LLMCall where
  | generate : Option String → Option (List Card) → LLMCall
  | judge : List Card → LLMCall
deriving DecidableEq

/-- The outcome of one external call site: the value produced, or the kind of
exception raised. -/
structure PipelineEnv where
  gen1 : Except String (List Card)
  gen2 : Except String (List Card)
  judgeRes : Except String JudgeResult
  genRefine : Except String (List Card)

/-- Result of the LLM-facing part of `kb_upsert_cards_for_markdown`: the final
card list, the `quality` dict, and the trace of external calls made. -/
structure UpsertOutcome where
  raw_cards : List Card
  quality : List (String × JVal)
  calls : List LLMCall

/-- The retry guidance of step 2. -/
def retryGuidance : String :=
  "Предыдущая попытка содержала ошибку генерации. Верни корректные карточки."

/-- Cards obtained from the first writer call (`try/except` collapses a raise
to the empty list). -/
def gen1Cards (env : PipelineEnv) : List Card :=
  match env.gen1 with
  | .ok cs => cs
  | .error _ => []

/-- Cards obtained from the retry writer call, same convention. -/
def gen2Cards (env : PipelineEnv) : List Card :=
  match env.gen2 with
  | .ok cs => cs
  | .error _ => []

/-- Steps 1-2: first generation, and the single retry when the first result
is empty or carries a generation-error signature. -/
def generationStage (env : PipelineEnv) : List Card × List LLMCall :=
  let raw1 := gen1Cards env
  if raw1.isEmpty || cards_have_generation_error raw1 then
    (gen2Cards env, [.generate none none, .generate (some retryGuidance) none])
  else
    (raw1, [.generate none none])

/-- The synthetic placeholder card of the total-failure fallback. -/
def placeholderCard (title : String) : Card :=
  { title := title,
    description := "Документ содержит информацию о (ошибка генерации карточек).",
    content_md := "Краткое описание не сгенерировано (ошибка формата/сети).",
    key_terms := [],
    entities := [] }

/-- The fixed quality report attached to the placeholder fallback. -/
def placeholderQuality : List (String × JVal) :=
  [("judge", .jobj
     [("ok", .jbool false),
      ("missing", .jarr [.jstr "Ошибка генерации/парсинга/сети"]),
      ("suggested_card_titles", .jarr [])])]

/-- Steps 3-5: judge once, sanitize, and refine once when the sanitized
verdict is negative. -/
def judgeRefineStage (env : PipelineEnv) (doc_text : String)
    (rawA : List Card) (callsA : List LLMCall) : UpsertOutcome :=
  let judge_meta := judge_once env.judgeRes
  let callsB := callsA ++ [.judge rawA]
  let meta := sanitize_judge_meta doc_text (.jobj judge_meta)
  let qual0 : List (String × JVal) := [("judge", .jobj meta)]
  if !pyTruthy ((pyDictGet meta "ok").getD (.jbool false)) then
    let callsC := callsB ++ [.generate (some (buildGuidance meta)) (some rawA)]
    match env.genRefine with
    | .ok refined =>
      if !refined.isEmpty then
        { raw_cards := refined,
          quality := qual0 ++ [("refinement_applied", .jbool true)],
          calls := callsC }
      else
        { raw_cards := rawA,
          quality := qual0 ++ [("refinement_applied", .jbool false)],
          calls := callsC }
    | .error kind =>
      { raw_cards := rawA,
        quality := qual0 ++ [("refinement_applied", .jbool false),
                             ("refinement_error", .jstr kind)],
        calls := callsC }
  else
    { raw_cards := rawA,
      quality := qual0 ++ [("refinement_applied", .jbool false)],
      calls := callsB }

/-- `PurePath(rel).stem`, for '/'-separated relative paths. -/
def pathStem (rel : String) : String :=
  let name := ((((splitOnChar '/' rel.data).map String.mk).filter
    (fun s => s ≠ "" ∧ s ≠ ".")).getLastD "")
  match pyRfindChar '.' name.data with
  | some i => if 0 < i ∧ i + 1 < name.length then ⟨name.data.take i⟩ else name
  | none => name

/-- The LLM-facing part of `kb_upsert_cards_for_markdown` (steps 1-5 plus the
placeholder fallback), producing the final card list, quality dict and call
trace for one document. -/
def runPipeline (env : PipelineEnv) (origin_rel_path doc_text : String) :
    UpsertOutcome :=
  let title := extract_title doc_text (pathStem origin_rel_path)
  let st := generationStage env
  if st.1.isEmpty then
    { raw_cards := [placeholderCard title],
      quality := placeholderQuality,
      calls := st.2 }
  else
    judgeRefineStage env doc_text st.1 st.2

/-! ## Card serialization (tools.py lines 523-544) -/

/-- The lead-in clause check string (lowercase, as in the source). -/
def leadInLower : String := "документ содержит информацию о"

/-- The description normalization of the write loop: a non-empty stripped
description not already starting (case-insensitively) with the lead-in
clause is wrapped into it. -/
def normalizeDescription (description : String) : String :=
  let d := pyStrip description
  if d ≠ "" ∧ !pyStartsWith (pyLower d) leadInLower then
    "Документ содержит информацию о " ++ pyRstripDot d ++ "."
  else d

/-- The serialized markdown body of one card: wrapped description, blank
line, body, blank line, provenance comment. -/
def renderCardBody (originsDirName origin_rel_path md_hash : String)
    (rc : Card) : String :=
  let description := normalizeDescription rc.description
  let content_md := pyStrip rc.content_md
  "-- " ++ description ++ " --\n\n" ++ content_md ++
    "\n\n<!-- source: " ++ originsDirName ++ "/" ++ origin_rel_path ++
    " source_sha256: " ++ md_hash ++ " -->\n"

/-- The effective card title at position `idx`: the stripped draft title, or
the document-title fallback. -/
def cardTitleAt (docTitle : String) (idx : Nat) (rc : Card) : String :=
  let t := pyStrip rc.title
  if t = "" then docTitle ++ " — часть " ++ toString (idx + 1) else t

/-- `card_id`: twelve leading characters of the hex digest of
`"{rel}:{hash}:{idx}:{title}"`; the digest function itself is abstract. -/
def card_id (sha256hex : String → String) (origin_rel_path md_hash : String)
    (idx : Nat) (t : String) : String :=
  ⟨(sha256hex (origin_rel_path ++ ":" ++ md_hash ++ ":" ++ toString idx ++ ":" ++ t)).data.take 12⟩

/-- The markdown filename of one card. -/
def cardFileName (sha256hex : String → String)
    (origin_rel_path md_hash source_stem docTitle : String)
    (idx : Nat) (rc : Card) : String :=
  "card_" ++ card_id sha256hex origin_rel_path md_hash idx (cardTitleAt docTitle idx rc) ++
    "_" ++ source_stem ++ ".md"

/-- The (filename, content) pairs the write loop produces, in order. -/
def renderAllFiles (sha256hex : String → String)
    (originsDirName origin_rel_path md_hash docTitle : String)
    (cards : List Card) : List (String × String) :=
  cards.enum.map (fun ic =>
    (cardFileName sha256hex origin_rel_path md_hash (pathStem origin_rel_path) docTitle ic.1 ic.2,
     renderCardBody originsDirName origin_rel_path md_hash ic.2))

/-! ## File-system model for the cards directory -/

/-- Does a filename match the glob pattern `card_*_{stem}.md` (where `*`
matches any run of non-separator characters)? -/
def matchesCardPattern (stem name : String) : Bool :=
  let pre := "card_".data
  let suf := ("_" ++ stem ++ ".md").data
  let n := name.data
  pre.isPrefixOf n && suf.isSuffixOf n &&
    decide (pre.length + suf.length ≤ n.length) &&
    !((n.drop pre.length).take (n.length - pre.length - suf.length)).contains '/'

/-- The stem-keyed cleanup before writing: each matching file is unlinked;
a failing unlink (`deleteFails`) is swallowed and the file stays. -/
def deleteMatching (deleteFails : String → Bool) (stem : String)
    (fs : List (String × String)) : List (String × String) :=
  fs.filter (fun f => !matchesCardPattern stem f.1 || deleteFails f.1)

/-- `write_text`: overwrite in place when the name exists, else create. -/
def fsWrite (fs : List (String × String)) (name content : String) :
    List (String × String) :=
  if fs.any (fun f => f.1 = name) then
    fs.map (fun f => if f.1 = name then (name, content) else f)
  else fs ++ [(name, content)]

/-- Write a batch of files in order. -/
def writeAll (fs : List (String × String)) (files : List (String × String)) :
    List (String × String) :=
  files.foldl (fun acc f => fsWrite acc f.1 f.2) fs

/-- The cards-directory effect of one `kb_upsert_cards_for_markdown` run:
delete the document's matching card files (best effort), then write the
freshly rendered ones. -/
def upsertWrite (deleteFails : String → Bool) (stem : String)
    (files : List (String × String)) (fs : List (String × String)) :
    List (String × String) :=
  writeAll (deleteMatching deleteFails stem fs) files

/-! ## Coverage analysis (`kb_analyze_coverage`, `_extract_sha_from_md_card`,
tools.py lines 100-147) -/

/-- Result dict of `kb_analyze_coverage`. -/
structure CoverageResult where
  origins_total : Nat
  missing : List String
  stale : List String
  invalid : List String
deriving DecidableEq

/-- The `tail.strip().split()[0]` part of `_extract_sha_from_md_card`: the
token scan on the text after the marker.  `split()[0]` on a whitespace-only
tail raises `IndexError`. -/
def parseShaTail (tl : List Char) : Except String (Option String) :=
  match splitWsChars (stripChars tl) with
  | [] => .error "IndexError: list index out of range"
  | tok :: _ =>
    let sha := stripChars tok
    .ok (if 32 ≤ sha.length then some ⟨sha⟩ else none)

/-- `_extract_sha_from_md_card`: tail after the last `source_sha256:`;
absent marker gives `none`; a marker with no token after it raises
`IndexError` (modelled as `.error`); a token shorter than 32 characters
gives `none`. -/
def extract_sha_from_md_card (text : String) : Except String (Option String) :=
  match lastOccTail "source_sha256:".data text.data with
  | none => .ok none
  | some tl => parseShaTail tl

/-- Is one matching card file "bad" for a document with fingerprint `hash`
(it raises on read, its fingerprint parse raises, no parsable fingerprint,
or the fingerprint differs)? -/
def cardBad (hash : String) (c : String × Except String String) : Bool :=
  match c.2 with
  | .error _ => true
  | .ok txt =>
    match extract_sha_from_md_card txt with
    | .error _ => true
    | .ok none => true
    | .ok (some sha) => sha ≠ hash

/-- The per-document card scan: `none` when every matching card carries the
current fingerprint; `some invs` when some card is bad, where `invs` is the
list (empty or one entry) of `invalid` strings contributed by the *first*
bad card — the loop `break`s there. -/
def scanCards (rel hash : String) :
    List (String × Except String String) → Option (List String)
  | [] => none
  | c :: rest =>
    match c.2 with
    | .error e => some [rel ++ ": " ++ c.1 ++ ": " ++ e]
    | .ok txt =>
      match extract_sha_from_md_card txt with
      | .error pe => some [rel ++ ": " ++ c.1 ++ ": " ++ pe]
      | .ok none => some []
      | .ok (some sha) => if sha = hash then scanCards rel hash rest else some []

/-- `kb_analyze_coverage` over a modelled corpus: `origins` is the list of
(relative path, current fingerprint) source documents in walk order, `cards`
the card files (name, read outcome) in glob order. -/
def kb_analyze_coverage (cards : List (String × Except String String))
    (include_stale : Bool) : List (String × String) → CoverageResult
  | [] => { origins_total := 0, missing := [], stale := [], invalid := [] }
  | od :: rest =>
    let r := kb_analyze_coverage cards include_stale rest
    let rel := od.1
    let mts := cards.filter (fun c => matchesCardPattern (pathStem rel) c.1)
    if mts.isEmpty then
      { r with origins_total := r.origins_total + 1, missing := rel :: r.missing }
    else if include_stale then
      match scanCards rel od.2 mts with
      | none => { r with origins_total := r.origins_total + 1 }
      | some invs =>
        { r with origins_total := r.origins_total + 1,
                 stale := rel :: r.stale, invalid := invs ++ r.invalid }
    else { r with origins_total := r.origins_total + 1 }

/-! ## Path containment (`_resolve_origin`, tools.py lines 31-35) -/

/-- `Path.resolve()` on components: `..` pops, `.` and empty components
vanish. -/
def resolveComponents (acc : List String) : List String → List String
  | [] => acc
  | c :: cs =>
    if c = ".." then resolveComponents acc.dropLast cs
    else if c = "." ∨ c = "" then resolveComponents acc cs
    else resolveComponents (acc ++ [c]) cs

/-- Render resolved components as an absolute path string. -/
def pathString (cs : List String) : String :=
  "/" ++ String.intercalate "/" cs

/-- `_resolve_origin`: join the relative path onto the (already resolved)
origins root, resolve, and reject when the resolved path's *string* does not
start with the root's string. -/
def resolve_origin (originsRoot : List String) (rel : String) :
    Except String (List String) :=
  let p := resolveComponents originsRoot ((splitOnChar '/' rel.data).map String.mk)
  if pyStartsWith (pathString p) (pathString originsRoot) then .ok p
  else .error "Path escapes origins_dir"

/-! ## Full-corpus synchronization (`kb_sync_all`, tools.py lines 556-562) -/

/-- The per-document result dict of `kb_upsert_cards_for_markdown` (the
fields the aggregate report carries). -/
structure UpsertResult where
  ok : Bool
  origin : String
  cards_md_count : Nat
  quality : List (String × JVal)

/-- `kb_upsert_cards_for_markdown` at the operation boundary: reading the
source document may raise (propagated); the LLM-facing pipeline inside never
does. -/
def kb_upsert_cards_for_markdown (env : PipelineEnv) (rel : String)
    (readRes : Except String String) : Except String UpsertResult :=
  match readRes with
  | .error e => .error e
  | .ok doc_text =>
    let out := runPipeline env rel doc_text
    .ok { ok := true, origin := rel,
          cards_md_count := out.raw_cards.length, quality := out.quality }

/-- The loop of `kb_sync_all`: results in order; the first raising document
aborts the loop and the exception propagates. -/
def syncLoop (process : String × Except String String → Except String UpsertResult) :
    List (String × Except String String) → Except String (List UpsertResult)
  | [] => .ok []
  | d :: ds =>
    match process d with
    | .error e => .error e
    | .ok r =>
      match syncLoop process ds with
      | .error e => .error e
      | .ok rs => .ok (r :: rs)

/-- The aggregate report of `kb_sync_all`. -/
structure SyncAllResult where
  ok : Bool
  processed : Nat
  results : List UpsertResult

/-- `kb_sync_all`. -/
def kb_sync_all (process : String × Except String String → Except String UpsertResult)
    (docs : List (String × Except String String)) : Except String SyncAllResult :=
  match syncLoop process docs with
  | .error e => .error e
  | .ok rs => .ok { ok := true, processed := docs.length, results := rs }

/-! ## Dictionary lemmas -/

theorem find?_map_set_same (d : List (String × JVal)) (k : String) (v : JVal)
    (h : d.any (fun e => e.1 = k) = true) :
    (d.map (fun e => if e.1 = k then (k, v) else e)).find? (fun e => e.1 = k)
      = some (k, v) := by
  induction d with
  | nil => simp at h
  | cons e d ih =>
    by_cases he : e.1 = k
    · simp [he, List.find?]
    · have h' : d.any (fun e => e.1 = k) = true := by simpa [he] using h
      have hd : (decide (e.1 = k)) = false := by simp [he]
      simp only [List.map_cons, if_neg he, List.find?_cons, hd]
      exact ih h'

theorem pyDictGet_set_same (d : List (String × JVal)) (k : String) (v : JVal) :
    pyDictGet (pyDictSet d k v) k = some v := by
  unfold pyDictSet pyDictGet
  by_cases ha : d.any (fun e => e.1 = k) = true
  · rw [if_pos ha, find?_map_set_same d k v ha]
  · have hn : d.find? (fun e => decide (e.1 = k)) = none := by
      rw [List.find?_eq_none]
      intro x hx
      by_contra hc
      simp only [Bool.not_eq_false, decide_eq_true_eq] at hc
      exact ha (List.any_eq_true.mpr ⟨x, hx, by simp [hc]⟩)
    rw [if_neg ha, List.find?_append, hn]
    simp [List.find?]

theorem find?_map_set_other (d : List (String × JVal)) (k k' : String) (v : JVal)
    (h : k' ≠ k) :
    (d.map (fun e => if e.1 = k then (k, v) else e)).find? (fun e => e.1 = k')
      = d.find? (fun e => e.1 = k') := by
  induction d with
  | nil => simp
  | cons e d ih =>
    by_cases he : e.1 = k
    · have h1 : (decide (k = k')) = false := by simp [Ne.symm h]
      have h2 : (decide (e.1 = k')) = false := by simp [he, Ne.symm h]
      simp only [List.map_cons, if_pos he, List.find?_cons, h1, h2]
      exact ih
    · simp only [List.map_cons, if_neg he, List.find?_cons]
      cases hd : decide (e.1 = k')
      · simpa using ih
      · rfl

theorem pyDictGet_set_other (d : List (String × JVal)) (k k' : String) (v : JVal)
    (h : k' ≠ k) :
    pyDictGet (pyDictSet d k v) k' = pyDictGet d k' := by
  unfold pyDictSet pyDictGet
  by_cases ha : d.any (fun e => e.1 = k) = true
  · rw [if_pos ha, find?_map_set_other d k k' v h]
  · rw [if_neg ha, List.find?_append]
    cases hd : d.find? (fun e => decide (e.1 = k')) with
    | some e => rfl
    | none =>
      have hkk : (decide (k = k')) = false := by simp [Ne.symm h]
      simp [List.find?, hkk]

theorem keys_set_subset (d : List (String × JVal)) (k k' : String) (v : JVal)
    (h : k' ∈ (pyDictSet d k v).map Prod.fst) :
    k' ∈ d.map Prod.fst ∨ k' = k := by
  unfold pyDictSet at h
  by_cases ha : d.any (fun e => e.1 = k) = true
  · rw [if_pos ha, List.map_map] at h
    left
    rw [List.mem_map] at h ⊢
    obtain ⟨e, he, hk⟩ := h
    refine ⟨e, he, ?_⟩
    by_cases hek : e.1 = k
    · simp only [Function.comp_apply, if_pos hek] at hk
      exact hek.trans hk
    · simpa [Function.comp_apply, if_neg hek] using hk
  · rw [if_neg ha, List.map_append, List.mem_append] at h
    rcases h with h | h
    · exact Or.inl h
    · simp at h
      exact Or.inr h

/-! ## C10: sanitizer frame property -/

theorem neKeyA : ("suggested_card_titles" : String) ≠ "missing" := by decide

theorem neKeyB : ("suggested_card_titles" : String) ≠ "ok" := by decide

theorem neKeyC : ("suggested_card_titles" : String) ≠ "missing_sanitized_removed" := by decide

theorem neKeyD : ("suggested_card_titles" : String) ≠ "ok_sanitized_overridden" := by decide

theorem neKeyE : ("ok" : String) ≠ "missing" := by decide

theorem neKeyF : ("ok" : String) ≠ "missing_sanitized_removed" := by decide

theorem neKeyG : ("ok" : String) ≠ "ok_sanitized_overridden" := by decide

/-- C10: sanitization only touches `missing`, `ok` and the two bookkeeping
keys: every other key's value passes through unchanged (in particular
`suggested_card_titles`), no key outside those four is ever added, and `ok`
is only ever changed from a falsy value to `true`, never the other way. -/
theorem c10_sanitize_frame (doc : String) (fields : List (String × JVal)) (k : String)
    (h1 : k ≠ "missing") (h2 : k ≠ "ok")
    (h3 : k ≠ "missing_sanitized_removed") (h4 : k ≠ "ok_sanitized_overridden") :
    pyDictGet (sanitize_judge_meta doc (.jobj fields)) k = pyDictGet fields k
    ∧ (∀ k', k' ∈ (sanitize_judge_meta doc (.jobj fields)).map Prod.fst →
        k' ∈ fields.map Prod.fst ∨ k' = "missing" ∨ k' = "ok"
          ∨ k' = "missing_sanitized_removed" ∨ k' = "ok_sanitized_overridden")
    ∧ pyDictGet (sanitize_judge_meta doc (.jobj fields)) "suggested_card_titles"
        = pyDictGet fields "suggested_card_titles"
    ∧ (pyTruthy ((pyDictGet fields "ok").getD (.jbool false)) = true →
        pyDictGet (sanitize_judge_meta doc (.jobj fields)) "ok" = pyDictGet fields "ok")
    ∧ (pyDictGet (sanitize_judge_meta doc (.jobj fields)) "ok" = pyDictGet fields "ok"
        ∨ pyDictGet (sanitize_judge_meta doc (.jobj fields)) "ok" = some (.jbool true)) := by
  refine ⟨?_, ?_, ?_, ?_, ?_⟩
  · simp only [sanitize_judge_meta]
    split_ifs <;> simp [pyDictGet_set_other, h1, h2, h3, h4]
  · intro k' hk'
    simp only [sanitize_judge_meta] at hk'
    split_ifs at hk' <;>
      (repeat' rcases keys_set_subset _ _ _ _ hk' with hk' | hk') <;> tauto
  · simp only [sanitize_judge_meta]
    split_ifs <;> simp [pyDictGet_set_other, neKeyA, neKeyB, neKeyC, neKeyD]
  · intro htr
    simp only [sanitize_judge_meta]
    split_ifs with hc1 hc2 hc2
    · exfalso
      rw [pyDictGet_set_other _ _ _ _ neKeyF, pyDictGet_set_other _ _ _ _ neKeyE,
        htr] at hc2
      simp at hc2
    · rw [pyDictGet_set_other _ _ _ _ neKeyF, pyDictGet_set_other _ _ _ _ neKeyE]
    · exfalso
      rw [pyDictGet_set_other _ _ _ _ neKeyE, htr] at hc2
      simp at hc2
    · rw [pyDictGet_set_other _ _ _ _ neKeyE]
  · simp only [sanitize_judge_meta]
    split_ifs
    · right
      rw [pyDictGet_set_other _ _ _ _ neKeyG, pyDictGet_set_same]
    · left
      rw [pyDictGet_set_other _ _ _ _ neKeyF, pyDictGet_set_other _ _ _ _ neKeyE]
    · right
      rw [pyDictGet_set_other _ _ _ _ neKeyG, pyDictGet_set_same]
    · left
      rw [pyDictGet_set_other _ _ _ _ neKeyE]

/-! ## Whitespace lemmas -/

theorem splitWsAux_allSpace (t : List Char) (acc : List Char)
    (h : ∀ c ∈ t, pyIsSpace c = true) :
    splitWsAux t acc = if acc.isEmpty then [] else [acc.reverse] := by
  induction t generalizing acc with
  | nil => rfl
  | cons c t ih =>
    have hc : pyIsSpace c = true := h c (by simp)
    have ht : ∀ x ∈ t, pyIsSpace x = true := fun x hx => h x (by simp [hx])
    simp only [splitWsAux, hc, if_true]
    by_cases ha : acc.isEmpty
    · simp only [ha, if_true]
      simpa using ih [] ht
    · simp only [ha, if_false]
      have := ih [] ht
      simp only [List.isEmpty_nil, if_true] at this
      simp [ha, this]

theorem splitWsAux_append_trailing (l t : List Char) (acc : List Char)
    (h : ∀ c ∈ t, pyIsSpace c = true) :
    splitWsAux (l ++ t) acc = splitWsAux l acc := by
  induction l generalizing acc with
  | nil =>
    simp only [List.nil_append]
    rw [splitWsAux_allSpace t acc h]
    rfl
  | cons c l ih =>
    simp only [List.cons_append, splitWsAux]
    by_cases hc : pyIsSpace c = true
    · simp [hc, ih]
    · simp [hc, ih]

theorem splitWsAux_dropWhile (l : List Char) :
    splitWsAux (l.dropWhile pyIsSpace) [] = splitWsAux l [] := by
  induction l with
  | nil => rfl
  | cons c l ih =>
    by_cases hc : pyIsSpace c = true
    · rw [List.dropWhile_cons_of_pos hc, ih]
      simp [splitWsAux, hc]
    · rw [List.dropWhile_cons_of_neg (by simpa using hc)]

theorem splitWsChars_strip (l : List Char) :
    splitWsChars (stripChars l) = splitWsChars l := by
  unfold stripChars splitWsChars
  set m := l.dropWhile pyIsSpace with hm
  have hdecomp : (m.reverse.dropWhile pyIsSpace).reverse ++ (m.reverse.takeWhile pyIsSpace).reverse = m := by
    rw [← List.reverse_append, List.takeWhile_append_dropWhile, List.reverse_reverse]
  have htrail : ∀ c ∈ (m.reverse.takeWhile pyIsSpace).reverse, pyIsSpace c = true := by
    intro c hc
    rw [List.mem_reverse] at hc
    exact List.mem_takeWhile_imp hc
  calc splitWsAux (m.reverse.dropWhile pyIsSpace).reverse []
      = splitWsAux ((m.reverse.dropWhile pyIsSpace).reverse ++ (m.reverse.takeWhile pyIsSpace).reverse) [] := by
        rw [splitWsAux_append_trailing _ _ _ htrail]
    _ = splitWsAux m [] := by rw [hdecomp]
    _ = splitWsAux l [] := splitWsAux_dropWhile l

theorem normalize_ws_strip (s : String) : normalize_ws (pyStrip s) = normalize_ws s := by
  unfold normalize_ws pyStrip
  rw [show (⟨stripChars s.data⟩ : String).data = stripChars s.data from rfl,
    splitWsChars_strip]

theorem splitWsAux_mem_ne_nil (l : List Char) :
    ∀ (acc : List Char), ∀ w ∈ splitWsAux l acc, w ≠ [] := by
  induction l with
  | nil =>
    intro acc w hw
    simp only [splitWsAux] at hw
    by_cases ha : acc.isEmpty
    · simp [ha] at hw
    · simp [ha] at hw
      subst hw
      simpa using ha
  | cons c l ih =>
    intro acc w hw
    simp only [splitWsAux] at hw
    by_cases hc : pyIsSpace c = true
    · simp only [hc, if_true] at hw
      by_cases ha : acc.isEmpty
      · simp only [ha, if_true] at hw
        exact ih [] w hw
      · simp [ha] at hw
        rcases hw with rfl | hw
        · simpa using ha
        · exact ih [] w hw
    · simp only [hc, if_false] at hw
      exact ih (c :: acc) w hw

theorem splitWsAux_ne_nil_of_acc (l : List Char) :
    ∀ acc : List Char, acc ≠ [] → splitWsAux l acc ≠ [] := by
  induction l with
  | nil =>
    intro acc ha
    have : acc.isEmpty = false := by simpa using ha
    simp [splitWsAux, this]
  | cons c l ih =>
    intro acc ha
    simp only [splitWsAux]
    by_cases hc : pyIsSpace c = true
    · have : acc.isEmpty = false := by simpa using ha
      simp [hc, this]
    · simp only [hc, if_false]
      exact ih (c :: acc) (by simp)

theorem splitWsAux_nil_iff (l : List Char) :
    splitWsAux l [] = [] ↔ ∀ c ∈ l, pyIsSpace c = true := by
  constructor
  · induction l with
    | nil =>
      intro _ c hc
      simp at hc
    | cons a l ih =>
      intro h c hc
      simp only [splitWsAux] at h
      by_cases ha : pyIsSpace a = true
      · simp only [ha, if_true, List.isEmpty_nil, if_true] at h
        rcases List.mem_cons.mp hc with rfl | hc'
        · exact ha
        · exact ih h c hc'
      · simp only [ha, if_false] at h
        exact absurd h (splitWsAux_ne_nil_of_acc l [a] (by simp))
  · intro h
    rw [splitWsAux_allSpace l [] h]
    rfl

theorem intercalate_sp_eq_nil_iff (ws : List (List Char))
    (hne : ∀ w ∈ ws, w ≠ []) :
    List.intercalate [' '] ws = [] ↔ ws = [] := by
  constructor
  · intro h
    cases ws with
    | nil => rfl
    | cons w ws =>
      exfalso
      have hw : w ≠ [] := hne w (by simp)
      cases ws with
      | nil =>
        simp [List.intercalate, List.intersperse] at h
        exact hw h
      | cons w2 ws =>
        simp [List.intercalate, List.intersperse] at h
  · intro h
    subst h
    rfl

theorem stripChars_eq_nil_of_allSpace (l : List Char)
    (h : ∀ c ∈ l, pyIsSpace c = true) : stripChars l = [] := by
  unfold stripChars
  have h1 : l.dropWhile pyIsSpace = [] := List.dropWhile_eq_nil_iff.mpr h
  simp [h1]

theorem pyStrip_empty_iff_normalize (s : String) :
    pyStrip s = "" ↔ normalize_ws s = "" := by
  constructor
  · intro h
    rw [← normalize_ws_strip, h]
    rfl
  · intro h
    unfold normalize_ws at h
    rw [String.ext_iff] at h
    have hws : splitWsChars s.data = [] := by
      have := (intercalate_sp_eq_nil_iff (splitWsChars s.data)
        (fun w hw => splitWsAux_mem_ne_nil s.data [] w hw)).mp h
      exact this
    unfold splitWsChars at hws
    have hall : ∀ c ∈ s.data, pyIsSpace c = true := (splitWsAux_nil_iff s.data).mp hws
    unfold pyStrip
    rw [String.ext_iff]
    exact stripChars_eq_nil_of_allSpace s.data hall

/-! ## C3 / C4: sanitizer characterization -/

/-- The verdict-flip condition of the sanitizer, spelled on the input. -/
def sanitizeFlip (doc : String) (fields : List (String × JVal)) : Bool :=
  !pyTruthy ((pyDictGet fields "ok").getD (.jbool false))
    && ((missingInOf fields).filter (keepMissingItem doc)).isEmpty
    && missingIsList fields

theorem dictGet_out2_ok (b : Prop) [Decidable b] (d : List (String × JVal))
    (v1 v2 : JVal) (k : String) (h1 : k ≠ "missing")
    (h2 : k ≠ "missing_sanitized_removed") :
    pyDictGet (if b then pyDictSet (pyDictSet d "missing" v1) "missing_sanitized_removed" v2
               else pyDictSet d "missing" v1) k = pyDictGet d k := by
  split_ifs
  · rw [pyDictGet_set_other _ _ _ _ h2, pyDictGet_set_other _ _ _ _ h1]
  · rw [pyDictGet_set_other _ _ _ _ h1]

theorem sanitize_spec (doc : String) (fields : List (String × JVal)) :
    pyDictGet (sanitize_judge_meta doc (.jobj fields)) "missing"
      = some (.jarr ((missingInOf fields).filter (keepMissingItem doc)))
    ∧ pyDictGet (sanitize_judge_meta doc (.jobj fields)) "missing_sanitized_removed"
      = (if ((missingInOf fields).filter (fun v => !keepMissingItem doc v)).length ≠ 0
         then some (.jnum ((missingInOf fields).filter (fun v => !keepMissingItem doc v)).length)
         else pyDictGet fields "missing_sanitized_removed")
    ∧ pyDictGet (sanitize_judge_meta doc (.jobj fields)) "ok"
      = (if sanitizeFlip doc fields then some (.jbool true) else pyDictGet fields "ok")
    ∧ pyDictGet (sanitize_judge_meta doc (.jobj fields)) "ok_sanitized_overridden"
      = (if sanitizeFlip doc fields then some (.jbool true)
         else pyDictGet fields "ok_sanitized_overridden") := by
  have hok2 := dictGet_out2_ok
    (((missingInOf fields).filter (fun v => !keepMissingItem doc v)).length ≠ 0)
    fields (.jarr ((missingInOf fields).filter (keepMissingItem doc)))
    (.jnum ((missingInOf fields).filter (fun v => !keepMissingItem doc v)).length)
    "ok" neKeyE neKeyF
  refine ⟨?_, ?_, ?_, ?_⟩
  · simp only [sanitize_judge_meta, hok2]
    split_ifs <;>
      simp [pyDictGet_set_same, pyDictGet_set_other]
  · simp only [sanitize_judge_meta, hok2]
    split_ifs <;>
      simp_all [pyDictGet_set_same, pyDictGet_set_other]
  · simp only [sanitize_judge_meta, hok2, sanitizeFlip]
    split_ifs <;>
      simp_all [pyDictGet_set_same, pyDictGet_set_other]
  · simp only [sanitize_judge_meta, hok2, sanitizeFlip]
    split_ifs <;>
      simp_all [pyDictGet_set_same, pyDictGet_set_other]

theorem keepMissingItem_str_evidence (doc : String) (fs : List (String × JVal))
    (ev : String) (hev : pyDictGet fs "evidence" = some (.jstr ev)) :
    keepMissingItem doc (.jobj fs)
      = (pyStrip ev ≠ "" && pyInStr (normalize_ws (pyStrip ev)) (normalize_ws doc)) := by
  simp only [keepMissingItem, hev, Option.getD_some]
  by_cases hev0 : ev = ""
  · subst hev0
    simp [pyTruthy, pyStrJ]
  · have ht : pyTruthy (JVal.jstr ev) = true := by simp [pyTruthy, hev0]
    simp [ht, pyStrJ]

/-- C3: a structured `missing` item survives sanitization iff its evidence,
whitespace-normalized, is a non-empty literal substring of the identically
normalized document text; failed items are dropped and counted; plain string
items are always kept verbatim. -/
theorem c3_evidence_sanitization (doc : String) (fields : List (String × JVal))
    (items : List JVal) (hm : pyDictGet fields "missing" = some (.jarr items)) :
    pyDictGet (sanitize_judge_meta doc (.jobj fields)) "missing"
      = some (.jarr (items.filter (keepMissingItem doc)))
    ∧ (∀ fs ev, JVal.jobj fs ∈ items → pyDictGet fs "evidence" = some (.jstr ev) →
        (keepMissingItem doc (.jobj fs) = true ↔
          normalize_ws ev ≠ "" ∧ pyInStr (normalize_ws ev) (normalize_ws doc) = true))
    ∧ (∀ s, JVal.jstr s ∈ items → keepMissingItem doc (.jstr s) = true)
    ∧ ((items.filter (fun v => !keepMissingItem doc v)).length ≠ 0 →
        pyDictGet (sanitize_judge_meta doc (.jobj fields)) "missing_sanitized_removed"
          = some (.jnum (items.filter (fun v => !keepMissingItem doc v)).length)) := by
  have hMI : missingInOf fields = items := by simp [missingInOf, hm]
  refine ⟨?_, ?_, ?_, ?_⟩
  · rw [(sanitize_spec doc fields).1, hMI]
  · intro fs ev _ hev
    rw [keepMissingItem_str_evidence doc fs ev hev, normalize_ws_strip]
    rw [Bool.and_eq_true, decide_eq_true_eq]
    constructor
    · rintro ⟨h1, h2⟩
      exact ⟨fun hh => h1 ((pyStrip_empty_iff_normalize ev).mpr hh), h2⟩
    · rintro ⟨h1, h2⟩
      exact ⟨fun hh => h1 ((pyStrip_empty_iff_normalize ev).mp hh), h2⟩
  · intro s _
    rfl
  · intro hr
    rw [(sanitize_spec doc fields).2.1, hMI]
    simp [hr]

theorem c3_evidence_sanitization_witness :
    pyDictGet (sanitize_judge_meta "The tool is called Acme"
        (.jobj [("ok", JVal.jbool false),
                ("missing", JVal.jarr
                  [JVal.jobj [("what", JVal.jstr "w"), ("evidence", JVal.jstr "called Acme")],
                   JVal.jobj [("what", JVal.jstr "z"), ("evidence", JVal.jstr "called Zenith")]])]))
      "missing"
      = some (.jarr
          ([JVal.jobj [("what", JVal.jstr "w"), ("evidence", JVal.jstr "called Acme")],
            JVal.jobj [("what", JVal.jstr "z"), ("evidence", JVal.jstr "called Zenith")]].filter
            (keepMissingItem "The tool is called Acme"))) :=
  (c3_evidence_sanitization "The tool is called Acme"
      [("ok", JVal.jbool false),
       ("missing", JVal.jarr
         [JVal.jobj [("what", JVal.jstr "w"), ("evidence", JVal.jstr "called Acme")],
          JVal.jobj [("what", JVal.jstr "z"), ("evidence", JVal.jstr "called Zenith")]])]
      [JVal.jobj [("what", JVal.jstr "w"), ("evidence", JVal.jstr "called Acme")],
       JVal.jobj [("what", JVal.jstr "z"), ("evidence", JVal.jstr "called Zenith")]]
      rfl).1

/-- C4 (amended): after filtering, the verdict is flipped to `ok=true` (and
flagged `ok_sanitized_overridden`) iff the original `ok` is falsy, the
original `missing` value is a list, and the whole kept list — structured
items and plain-string diagnostics alike — is empty; consequently a negative
verdict is honored exactly when at least one missing item of either kind
survives. -/
theorem c4_flip_amended (doc : String) (fields : List (String × JVal))
    (hno : pyDictGet fields "ok_sanitized_overridden" = none) :
    ((pyDictGet (sanitize_judge_meta doc (.jobj fields)) "ok" = some (.jbool true)
        ∧ pyDictGet (sanitize_judge_meta doc (.jobj fields)) "ok_sanitized_overridden"
            = some (.jbool true))
      ↔ (pyTruthy ((pyDictGet fields "ok").getD (.jbool false)) = false
         ∧ (∃ xs, pyDictGet fields "missing" = some (.jarr xs))
         ∧ (missingInOf fields).filter (keepMissingItem doc) = []))
    ∧ ((missingInOf fields).filter (keepMissingItem doc) ≠ [] →
        pyDictGet (sanitize_judge_meta doc (.jobj fields)) "ok" = pyDictGet fields "ok") := by
  obtain ⟨-, -, hok, hovr⟩ := sanitize_spec doc fields
  have hiff : sanitizeFlip doc fields = true ↔
      (pyTruthy ((pyDictGet fields "ok").getD (.jbool false)) = false
       ∧ (∃ xs, pyDictGet fields "missing" = some (.jarr xs))
       ∧ (missingInOf fields).filter (keepMissingItem doc) = []) := by
    unfold sanitizeFlip
    rw [Bool.and_eq_true, Bool.and_eq_true]
    constructor
    · rintro ⟨⟨h1, h2⟩, h3⟩
      refine ⟨by simpa using h1, ?_, by simpa [List.isEmpty_iff] using h2⟩
      revert h3
      unfold missingIsList
      cases hm : pyDictGet fields "missing" with
      | none => simp
      | some v => cases v <;> simp_all
    · rintro ⟨h1, ⟨xs, hxs⟩, h3⟩
      refine ⟨⟨by simp [h1], by simp [List.isEmpty_iff, h3]⟩, ?_⟩
      unfold missingIsList
      rw [hxs]
  constructor
  · rw [hok, hovr]
    by_cases hf : sanitizeFlip doc fields = true
    · simp only [hf, if_true]
      simp [hiff.mp hf]
    · have hf' : sanitizeFlip doc fields = false := by simpa using hf
      simp only [hf', Bool.false_eq_true, if_false, hno]
      constructor
      · rintro ⟨-, h⟩
        cases h
      · intro hr
        exact absurd (hiff.mpr hr) (by simp [hf'])
  · intro hk
    rw [hok]
    have hf' : sanitizeFlip doc fields = false := by
      unfold sanitizeFlip
      have h2 : ((missingInOf fields).filter (keepMissingItem doc)).isEmpty = false := by
        simpa [List.isEmpty_iff] using hk
      simp [h2]
    simp [hf']

theorem c4_flip_amended_witness :
    pyDictGet (sanitize_judge_meta "doc"
        (.jobj [("ok", JVal.jbool false), ("missing", JVal.jarr [JVal.jstr "diag"])])) "ok"
      = pyDictGet [("ok", JVal.jbool false), ("missing", JVal.jarr [JVal.jstr "diag"])] "ok" :=
  (c4_flip_amended "doc" [("ok", JVal.jbool false), ("missing", JVal.jarr [JVal.jstr "diag"])]
      rfl).2 (by exact fun h => List.noConfusion h)

/-- C4 counterexample to the claim as stated: a negative verdict whose only
surviving missing item is a plain diagnostic string (zero structured items
survive) is *not* flipped — sanitization leaves `ok=false` with no override
flag, contradicting "flipped whenever the surviving structured-item list is
empty" and "ok=false only honored when a structured evidenced entry
survives". -/
theorem c4_counterexample :
    pyDictGet [("ok", JVal.jbool false), ("missing", JVal.jarr [JVal.jstr "diag"])] "ok"
      = some (JVal.jbool false)
    ∧ pyDictGet (sanitize_judge_meta ""
        (.jobj [("ok", JVal.jbool false), ("missing", JVal.jarr [JVal.jstr "diag"])])) "ok"
      = some (JVal.jbool false)
    ∧ pyDictGet (sanitize_judge_meta ""
        (.jobj [("ok", JVal.jbool false), ("missing", JVal.jarr [JVal.jstr "diag"])]))
        "ok_sanitized_overridden" = none
    ∧ pyDictGet (sanitize_judge_meta ""
        (.jobj [("ok", JVal.jbool false), ("missing", JVal.jarr [JVal.jstr "diag"])])) "missing"
      = some (JVal.jarr [JVal.jstr "diag"])
    ∧ ([JVal.jstr "diag"].countP (fun v =>
        match v with
        | JVal.jobj _ => true
        | _ => false)) = 0 :=
  ⟨rfl, rfl, rfl, rfl, rfl⟩

theorem c10_sanitize_frame_witness :
    pyDictGet (sanitize_judge_meta "" (.jobj [("ok", JVal.jbool true), ("extra", JVal.jnull)]))
      "extra" = pyDictGet [("ok", JVal.jbool true), ("extra", JVal.jnull)] "extra" :=
  (c10_sanitize_frame "" [("ok", JVal.jbool true), ("extra", JVal.jnull)] "extra"
    (by decide) (by decide) (by decide) (by decide)).1

/-! ## C1: retry bound and placeholder fallback -/

/-- C1 (amended): if the first generation result is empty or flagged, exactly
one retry is made with the fixed "previous attempt was malformed" guidance;
if that retry raises or returns the empty list, the pipeline terminates with
exactly one synthetic placeholder card (title = extracted heading or the
filename stem, body containing the failure marker) and the fixed `ok=false`
quality report, with no judge call and no third generation call.  (A flagged
but *non-empty* retry result instead proceeds to validation — see the
counterexample.) -/
theorem c1_retry_bound_amended (env : PipelineEnv) (rel doc : String)
    (h1 : gen1Cards env = [] ∨ cards_have_generation_error (gen1Cards env) = true)
    (h2 : gen2Cards env = []) :
    runPipeline env rel doc =
      { raw_cards := [placeholderCard (extract_title doc (pathStem rel))],
        quality := placeholderQuality,
        calls := [.generate none none, .generate (some retryGuidance) none] }
    ∧ pyInStr FALLBACK_MARKER
        (placeholderCard (extract_title doc (pathStem rel))).content_md = true
    ∧ pyDictGet placeholderQuality "judge" = some (.jobj
        [("ok", .jbool false), ("missing", .jarr [.jstr "Ошибка генерации/парсинга/сети"]),
         ("suggested_card_titles", .jarr [])]) := by
  have hst : generationStage env
      = (gen2Cards env, [.generate none none, .generate (some retryGuidance) none]) := by
    unfold generationStage
    rcases h1 with h1 | h1
    · rw [h1]
      simp
    · simp [h1]
  refine ⟨?_, rfl, rfl⟩
  simp [runPipeline, hst, h2]

theorem c1_retry_bound_witness :
    runPipeline ⟨.ok [], .error "RequestError", .ok ⟨true, [], []⟩, .ok []⟩ "d.md" "text" =
      { raw_cards := [placeholderCard (extract_title "text" (pathStem "d.md"))],
        quality := placeholderQuality,
        calls := [.generate none none, .generate (some retryGuidance) none] } :=
  (c1_retry_bound_amended ⟨.ok [], .error "RequestError", .ok ⟨true, [], []⟩, .ok []⟩
    "d.md" "text" (Or.inl rfl) rfl).1

/-- A card carrying the fixed failure marker in its description. -/
def flaggedCard : Card :=
  { title := "t", description := FALLBACK_MARKER, content_md := "x",
    key_terms := [], entities := [] }

/-- The environment of the C1 counterexample: both generation calls return a
non-empty card list containing the fixed failure marker; the judge then
reports `ok=true`. -/
def envC1 : PipelineEnv :=
  ⟨.ok [flaggedCard], .ok [flaggedCard], .ok ⟨true, [], []⟩, .ok []⟩

/-- C1 counterexample to the claim as stated: when the generator returns the
fixed failure marker on both the first and the retry call (as non-empty card
lists), synthesis does *not* fall back to the placeholder and VALIDATE is
*not* skipped — the judge is invoked once and the flagged cards survive. -/
theorem c1_retry_bound_counterexample :
    cards_have_generation_error [flaggedCard] = true
    ∧ (runPipeline envC1 "d.md" "doc").calls
        = [.generate none none, .generate (some retryGuidance) none, .judge [flaggedCard]]
    ∧ (runPipeline envC1 "d.md" "doc").raw_cards = [flaggedCard]
    ∧ (runPipeline envC1 "d.md" "doc").raw_cards
        ≠ [placeholderCard (extract_title "doc" (pathStem "d.md"))] := by
  refine ⟨rfl, rfl, rfl, ?_⟩
  decide

/-! ## C2: refinement bound -/

/-- Is a trace entry a judge (validator) call? -/
def isJudgeCall : LLMCall → Bool
  | .judge _ => true
  | _ => false

/-- Is a trace entry a refinement call (a generation call that passes prior
candidate cards as context)? -/
def isRefineCall : LLMCall → Bool
  | .generate _ (some _) => true
  | _ => false

theorem generationStage_no_judge (env : PipelineEnv) :
    ((generationStage env).2).countP isJudgeCall = 0 := by
  simp only [generationStage]
  split_ifs <;> rfl

theorem generationStage_no_refine (env : PipelineEnv) :
    ((generationStage env).2).countP isRefineCall = 0 := by
  simp only [generationStage]
  split_ifs <;> rfl

theorem jrs_ok_true (env : PipelineEnv) (doc : String) (rawA : List Card)
    (callsA : List LLMCall)
    (hok : pyTruthy ((pyDictGet (sanitize_judge_meta doc (.jobj (judge_once env.judgeRes)))
      "ok").getD (.jbool false)) = true) :
    judgeRefineStage env doc rawA callsA =
      { raw_cards := rawA,
        quality := [("judge", .jobj (sanitize_judge_meta doc (.jobj (judge_once env.judgeRes)))),
                    ("refinement_applied", .jbool false)],
        calls := callsA ++ [.judge rawA] } := by
  simp only [judgeRefineStage]
  simp [hok]

theorem jrs_refine_empty (env : PipelineEnv) (doc : String) (rawA : List Card)
    (callsA : List LLMCall)
    (hok : pyTruthy ((pyDictGet (sanitize_judge_meta doc (.jobj (judge_once env.judgeRes)))
      "ok").getD (.jbool false)) = false)
    (hg : env.genRefine = .ok [])  :
    judgeRefineStage env doc rawA callsA =
      { raw_cards := rawA,
        quality := [("judge", .jobj (sanitize_judge_meta doc (.jobj (judge_once env.judgeRes)))),
                    ("refinement_applied", .jbool false)],
        calls := callsA ++ [.judge rawA,
          .generate (some (buildGuidance (sanitize_judge_meta doc
            (.jobj (judge_once env.judgeRes))))) (some rawA)] } := by
  simp only [judgeRefineStage]
  simp [hok, hg]

theorem jrs_refine_nonempty (env : PipelineEnv) (doc : String) (rawA : List Card)
    (callsA : List LLMCall) (refined : List Card)
    (hok : pyTruthy ((pyDictGet (sanitize_judge_meta doc (.jobj (judge_once env.judgeRes)))
      "ok").getD (.jbool false)) = false)
    (hg : env.genRefine = .ok refined) (hr : refined ≠ []) :
    judgeRefineStage env doc rawA callsA =
      { raw_cards := refined,
        quality := [("judge", .jobj (sanitize_judge_meta doc (.jobj (judge_once env.judgeRes)))),
                    ("refinement_applied", .jbool true)],
        calls := callsA ++ [.judge rawA,
          .generate (some (buildGuidance (sanitize_judge_meta doc
            (.jobj (judge_once env.judgeRes))))) (some rawA)] } := by
  simp only [judgeRefineStage]
  have hre : refined.isEmpty = false := by
    rw [← Bool.not_eq_true, List.isEmpty_iff]
    exact hr
  simp [hok, hg, hre]

theorem jrs_refine_error (env : PipelineEnv) (doc : String) (rawA : List Card)
    (callsA : List LLMCall) (kind : String)
    (hok : pyTruthy ((pyDictGet (sanitize_judge_meta doc (.jobj (judge_once env.judgeRes)))
      "ok").getD (.jbool false)) = false)
    (hg : env.genRefine = .error kind) :
    judgeRefineStage env doc rawA callsA =
      { raw_cards := rawA,
        quality := [("judge", .jobj (sanitize_judge_meta doc (.jobj (judge_once env.judgeRes)))),
                    ("refinement_applied", .jbool false),
                    ("refinement_error", .jstr kind)],
        calls := callsA ++ [.judge rawA,
          .generate (some (buildGuidance (sanitize_judge_meta doc
            (.jobj (judge_once env.judgeRes))))) (some rawA)] } := by
  simp only [judgeRefineStage]
  simp [hok, hg]

/-- C2: the judge is invoked at most once per document; whenever the
sanitized verdict is negative, exactly one refinement generation call is
made (passing the prior candidate cards as context), the judge is never
re-invoked afterwards (the refinement call is the last external call), and
the refinement outcome is recorded: a non-empty result replaces the
candidate set with `refinement_applied=true`, an empty result keeps it with
`refinement_applied=false`, and a raising call records
`refinement_applied=false` plus the exception kind under `refinement_error`;
on a positive sanitized verdict no refinement call is made at all. -/
theorem c2_refinement_bound (env : PipelineEnv) (rel doc : String) :
    ((runPipeline env rel doc).calls.countP isJudgeCall ≤ 1)
    ∧ ((generationStage env).1 ≠ [] →
        (pyTruthy ((pyDictGet (sanitize_judge_meta doc (.jobj (judge_once env.judgeRes)))
              "ok").getD (.jbool false)) = false →
          (runPipeline env rel doc).calls
            = (generationStage env).2 ++
                [.judge (generationStage env).1,
                 .generate
                   (some (buildGuidance
                     (sanitize_judge_meta doc (.jobj (judge_once env.judgeRes)))))
                   (some (generationStage env).1)]
          ∧ (runPipeline env rel doc).calls.countP isRefineCall = 1
          ∧ (runPipeline env rel doc).calls.countP isJudgeCall = 1
          ∧ (match env.genRefine with
             | .ok refined =>
               if refined = [] then
                 (runPipeline env rel doc).raw_cards = (generationStage env).1
                 ∧ pyDictGet (runPipeline env rel doc).quality "refinement_applied"
                     = some (.jbool false)
               else
                 (runPipeline env rel doc).raw_cards = refined
                 ∧ pyDictGet (runPipeline env rel doc).quality "refinement_applied"
                     = some (.jbool true)
             | .error kind =>
               (runPipeline env rel doc).raw_cards = (generationStage env).1
               ∧ pyDictGet (runPipeline env rel doc).quality "refinement_applied"
                   = some (.jbool false)
               ∧ pyDictGet (runPipeline env rel doc).quality "refinement_error"
                   = some (.jstr kind)))
        ∧ (pyTruthy ((pyDictGet (sanitize_judge_meta doc (.jobj (judge_once env.judgeRes)))
              "ok").getD (.jbool false)) = true →
          (runPipeline env rel doc).calls
            = (generationStage env).2 ++ [.judge (generationStage env).1]
          ∧ (runPipeline env rel doc).calls.countP isRefineCall = 0)) := by
  have hcj : ∀ t : List LLMCall,
      ((generationStage env).2 ++ t).countP isJudgeCall = t.countP isJudgeCall := by
    intro t
    rw [List.countP_append, generationStage_no_judge, Nat.zero_add]
  have hcr : ∀ t : List LLMCall,
      ((generationStage env).2 ++ t).countP isRefineCall = t.countP isRefineCall := by
    intro t
    rw [List.countP_append, generationStage_no_refine, Nat.zero_add]
  by_cases hA : (generationStage env).1.isEmpty
  · have hrp : runPipeline env rel doc =
        { raw_cards := [placeholderCard (extract_title doc (pathStem rel))],
          quality := placeholderQuality,
          calls := (generationStage env).2 } := by
      simp [runPipeline, hA]
    constructor
    · rw [hrp]
      show ((generationStage env).2).countP isJudgeCall ≤ 1
      rw [generationStage_no_judge]
      exact Nat.zero_le 1
    · intro hne
      rw [List.isEmpty_iff] at hA
      exact absurd hA hne
  · have hrp : runPipeline env rel doc =
        judgeRefineStage env doc (generationStage env).1 (generationStage env).2 := by
      simp [runPipeline, hA]
    by_cases hok : pyTruthy ((pyDictGet (sanitize_judge_meta doc
        (.jobj (judge_once env.judgeRes))) "ok").getD (.jbool false)) = true
    · rw [hrp, jrs_ok_true env doc _ _ hok]
      refine ⟨?_, ?_⟩
      · simp [hcj, List.countP_cons, isJudgeCall]
      · intro _
        constructor
        · intro hff
          rw [hok] at hff
          exact Bool.noConfusion hff
        · intro _
          refine ⟨rfl, ?_⟩
          simp [hcr, List.countP_cons, isRefineCall]
    · have hok' : pyTruthy ((pyDictGet (sanitize_judge_meta doc
          (.jobj (judge_once env.judgeRes))) "ok").getD (.jbool false)) = false := by
        simpa using hok
      cases hg : env.genRefine with
      | ok refined =>
        by_cases hr0 : refined = []
        · subst hr0
          rw [hrp, jrs_refine_empty env doc _ _ hok' hg]
          refine ⟨?_, ?_⟩
          · simp [hcj, List.countP_cons, isJudgeCall]
          · intro _
            constructor
            · intro _
              refine ⟨rfl, ?_, ?_, ?_⟩
              · simp [hcr, List.countP_cons, isRefineCall]
              · simp [hcj, List.countP_cons, isJudgeCall]
              · exact ⟨rfl, rfl⟩
            · intro htt
              rw [hok'] at htt
              exact Bool.noConfusion htt
        · rw [hrp, jrs_refine_nonempty env doc _ _ refined hok' hg hr0]
          refine ⟨?_, ?_⟩
          · simp [hcj, List.countP_cons, isJudgeCall]
          · intro _
            constructor
            · intro _
              refine ⟨rfl, ?_, ?_, ?_⟩
              · simp [hcr, List.countP_cons, isRefineCall]
              · simp [hcj, List.countP_cons, isJudgeCall]
              · simp only [if_neg hr0]
                exact ⟨trivial, rfl⟩
            · intro htt
              rw [hok'] at htt
              exact Bool.noConfusion htt
      | error kind =>
        rw [hrp, jrs_refine_error env doc _ _ kind hok' hg]
        refine ⟨?_, ?_⟩
        · simp [hcj, List.countP_cons, isJudgeCall]
        · intro _
          constructor
          · intro _
            refine ⟨rfl, ?_, ?_, ?_⟩
            · simp [hcr, List.countP_cons, isRefineCall]
            · simp [hcj, List.countP_cons, isJudgeCall]
            · exact ⟨rfl, rfl, rfl⟩
          · intro htt
            rw [hok'] at htt
            exact Bool.noConfusion htt

/-- A well-formed card without failure signatures, for the C2 witness. -/
def cleanCard : Card :=
  { title := "A", description := "d", content_md := "c", key_terms := [], entities := [] }

/-- Witness environment for C2: clean first generation, a negative judge
verdict with in-document evidence, and a raising refinement call. -/
def envW : PipelineEnv :=
  ⟨.ok [cleanCard], .ok [], .ok ⟨false, [⟨"gap", "Acme works"⟩], []⟩, .error "Timeout"⟩

theorem c2_refinement_bound_witness :
    (runPipeline envW "a.md" "Acme works").calls.countP isRefineCall = 1 :=
  (((c2_refinement_bound envW "a.md" "Acme works").2 (by decide)).1 (by decide)).2.1

/-! ## C7: corpus-wide failure isolation -/

/-- Any pipeline environment, for the C7 counterexample. -/
def envBench : PipelineEnv := ⟨.ok [], .ok [], .ok ⟨true, [], []⟩, .ok []⟩

/-- C7 counterexample to the claim as stated: a document whose read raises
makes `kb_sync_all` propagate the exception — no aggregate result is
returned and the remaining document is never processed. -/
theorem c7_sync_counterexample :
    kb_sync_all (fun d => kb_upsert_cards_for_markdown envBench d.1 d.2)
      [("a.md", .error "UnicodeDecodeError: invalid byte"), ("b.md", .ok "text")]
      = .error "UnicodeDecodeError: invalid byte" := rfl

/-- C7 (amended): failures *inside* generation/validation are isolated — the
per-document pipeline is total once the source document was read, so a sync
over readable documents always returns a well-formed aggregate with one
result per document in order; but an exception from the per-document
operation itself (e.g. an unreadable source file) propagates out of
`kb_sync_all`, aborting the remaining documents. -/
theorem c7_sync_amended :
    (∀ (env : PipelineEnv) (rel doc_text : String),
      ∃ r, kb_upsert_cards_for_markdown env rel (.ok doc_text) = .ok r)
    ∧ (∀ (process : String × Except String String → Except String UpsertResult)
         (docs : List (String × Except String String)),
        (∀ d ∈ docs, ∃ r, process d = .ok r) →
        ∃ rs, kb_sync_all process docs
            = .ok { ok := true, processed := docs.length, results := rs }
          ∧ rs.length = docs.length)
    ∧ (∀ (process : String × Except String String → Except String UpsertResult)
         (d : String × Except String String) (ds : List (String × Except String String))
         (e : String),
        process d = .error e → kb_sync_all process (d :: ds) = .error e) := by
  refine ⟨?_, ?_, ?_⟩
  · intro env rel doc_text
    exact ⟨_, rfl⟩
  · intro process docs h
    induction docs with
    | nil => exact ⟨[], rfl, rfl⟩
    | cons d ds ih =>
      obtain ⟨r, hr⟩ := h d (List.mem_cons_self d ds)
      obtain ⟨rs, hrs, hlen⟩ := ih (fun x hx => h x (List.mem_cons_of_mem _ hx))
      cases hsl : syncLoop process ds with
      | error e =>
        rw [kb_sync_all, hsl] at hrs
        cases hrs
      | ok rs' =>
        rw [kb_sync_all, hsl] at hrs
        have hrs' : rs' = rs := by
          simp only [Except.ok.injEq, SyncAllResult.mk.injEq, true_and] at hrs
          exact hrs
        refine ⟨r :: rs', ?_, ?_⟩
        · rw [kb_sync_all]
          show (match syncLoop process (d :: ds) with
            | .error e => (.error e : Except String SyncAllResult)
            | .ok rs => .ok { ok := true, processed := (d :: ds).length, results := rs }) = _
          rw [syncLoop, hr, hsl]
        · simp [hrs', hlen]
  · intro process d ds e he
    rw [kb_sync_all, syncLoop, he]

theorem c7_sync_amended_witness :
    kb_sync_all (fun _ => .error "OSError: boom") [("a.md", .ok "x")]
      = .error "OSError: boom" :=
  c7_sync_amended.2.2 (fun _ => .error "OSError: boom") ("a.md", .ok "x") [] "OSError: boom" rfl

/-! ## C9: path containment -/

/-- C9 (code-bug evidence): the containment check is a string-prefix test; a
sibling directory whose name extends the root's name passes it.  At the
failing input the request resolves *outside* the origins root (the root's
components are not a prefix of the resolved path's components), yet
`_resolve_origin` accepts it and I/O would proceed. -/
theorem c9_path_containment_bug :
    resolve_origin ["kb", "origins"] "../origins_evil/secret.md"
      = .ok ["kb", "origins_evil", "secret.md"]
    ∧ ¬ ["kb", "origins"] <+: ["kb", "origins_evil", "secret.md"]
    ∧ pyStartsWith (pathString ["kb", "origins_evil", "secret.md"])
        (pathString ["kb", "origins"]) = true := by
  refine ⟨rfl, ?_, rfl⟩
  decide

/-! ## C6: deterministic identifiers and idempotent writes -/

theorem mem_names_fsWrite (fs : List (String × String)) (n m c : String) :
    n ∈ (fsWrite fs m c).map Prod.fst ↔ n ∈ fs.map Prod.fst ∨ n = m := by
  unfold fsWrite
  by_cases ha : fs.any (fun f => f.1 = m) = true
  · rw [if_pos ha, List.map_map]
    constructor
    · intro h
      rw [List.mem_map] at h
      obtain ⟨f, hf, hn⟩ := h
      simp only [Function.comp_apply] at hn
      by_cases hm : f.1 = m
      · rw [if_pos hm] at hn
        right
        exact hn.symm
      · rw [if_neg hm] at hn
        left
        exact List.mem_map.mpr ⟨f, hf, hn⟩
    · intro h
      rw [List.mem_map]
      rcases h with h | rfl
      · rw [List.mem_map] at h
        obtain ⟨f, hf, hn⟩ := h
        refine ⟨f, hf, ?_⟩
        simp only [Function.comp_apply]
        by_cases hm : f.1 = m
        · rw [if_pos hm]
          show m = n
          rw [← hm]
          exact hn
        · rw [if_neg hm]
          exact hn
      · rw [List.any_eq_true] at ha
        obtain ⟨f, hf, hm⟩ := ha
        simp only [decide_eq_true_eq] at hm
        refine ⟨f, hf, ?_⟩
        simp only [Function.comp_apply, if_pos hm]
  · rw [if_neg ha, List.map_append, List.mem_append]
    simp

theorem mem_names_writeAll (files : List (String × String)) :
    ∀ (fs : List (String × String)) (n : String),
      n ∈ (writeAll fs files).map Prod.fst ↔
        n ∈ fs.map Prod.fst ∨ n ∈ files.map Prod.fst := by
  induction files with
  | nil =>
    intro fs n
    simp [writeAll]
  | cons f files ih =>
    intro fs n
    show n ∈ (writeAll (fsWrite fs f.1 f.2) files).map Prod.fst ↔ _
    rw [ih, mem_names_fsWrite]
    simp only [List.map_cons, List.mem_cons]
    tauto

theorem mem_names_deleteMatching (df : String → Bool) (stem : String)
    (fs : List (String × String)) (n : String) :
    n ∈ (deleteMatching df stem fs).map Prod.fst ↔
      n ∈ fs.map Prod.fst ∧ (!matchesCardPattern stem n || df n) = true := by
  unfold deleteMatching
  constructor
  · intro h
    rw [List.mem_map] at h
    obtain ⟨f, hf, hn⟩ := h
    rw [List.mem_filter] at hf
    subst hn
    exact ⟨List.mem_map_of_mem _ hf.1, hf.2⟩
  · rintro ⟨h, hp⟩
    rw [List.mem_map] at h
    obtain ⟨f, hf, hn⟩ := h
    subst hn
    rw [List.mem_map]
    exact ⟨f, List.mem_filter.mpr ⟨hf, hp⟩, rfl⟩

theorem mem_names_upsertWrite (df : String → Bool) (stem : String)
    (files fs : List (String × String)) (n : String) :
    n ∈ (upsertWrite df stem files fs).map Prod.fst ↔
      (n ∈ fs.map Prod.fst ∧ (!matchesCardPattern stem n || df n) = true)
        ∨ n ∈ files.map Prod.fst := by
  unfold upsertWrite
  rw [mem_names_writeAll, mem_names_deleteMatching]

theorem enumFrom_names_titles (sha256hex : String → String)
    (rel hash stem docTitle : String) :
    ∀ (n : Nat) (cards cards' : List Card),
      cards.map Card.title = cards'.map Card.title →
      (List.enumFrom n cards).map
          (fun ic => cardFileName sha256hex rel hash stem docTitle ic.1 ic.2)
        = (List.enumFrom n cards').map
            (fun ic => cardFileName sha256hex rel hash stem docTitle ic.1 ic.2) := by
  intro n cards
  induction cards generalizing n with
  | nil =>
    intro cards' h
    cases cards' with
    | nil => rfl
    | cons c' cs' => simp at h
  | cons c cs ih =>
    intro cards' h
    cases cards' with
    | nil => simp at h
    | cons c' cs' =>
      simp only [List.map_cons, List.cons.injEq] at h
      obtain ⟨ht, hts⟩ := h
      simp only [List.enumFrom, List.map_cons]
      rw [ih (n + 1) cs' hts]
      have : cardFileName sha256hex rel hash stem docTitle n c
          = cardFileName sha256hex rel hash stem docTitle n c' := by
        unfold cardFileName cardTitleAt
        rw [ht]
      rw [this]

/-- C6: the card id (hence the card filename) is a deterministic function of
(document path, fingerprint, index, title) — two card lists with the same
titles yield the same filenames — and the delete-then-write cycle is
idempotent on the set of filenames: running it twice with the same rendered
files leaves exactly the filename set of one run, with no accumulation. -/
theorem c6_idempotent_ids (sha256hex : String → String)
    (dirName rel hash docTitle : String) (cards cards' : List Card)
    (fs : List (String × String)) (deleteFails : String → Bool)
    (htitles : cards.map Card.title = cards'.map Card.title) :
    (renderAllFiles sha256hex dirName rel hash docTitle cards).map Prod.fst
      = (renderAllFiles sha256hex dirName rel hash docTitle cards').map Prod.fst
    ∧ (∀ n, n ∈ (upsertWrite deleteFails (pathStem rel)
          (renderAllFiles sha256hex dirName rel hash docTitle cards)
          (upsertWrite deleteFails (pathStem rel)
            (renderAllFiles sha256hex dirName rel hash docTitle cards) fs)).map Prod.fst
        ↔ n ∈ (upsertWrite deleteFails (pathStem rel)
            (renderAllFiles sha256hex dirName rel hash docTitle cards) fs).map Prod.fst) := by
  constructor
  · unfold renderAllFiles
    rw [List.map_map, List.map_map]
    have he : ∀ l : List Card, List.enum l = List.enumFrom 0 l := fun _ => rfl
    show (List.enum cards).map
        (fun ic => cardFileName sha256hex rel hash (pathStem rel) docTitle ic.1 ic.2) = _
    rw [he, he,
      enumFrom_names_titles sha256hex rel hash (pathStem rel) docTitle 0 cards cards' htitles]
    rfl
  · intro n
    simp only [mem_names_upsertWrite]
    tauto

theorem c6_idempotent_ids_witness :
    "card_x.md" ∈ (upsertWrite (fun _ => false) (pathStem "d.md")
        (renderAllFiles (fun _ => "0123456789abcdef0123456789abcdef") "origins" "d.md" "h" "T"
          [cleanCard])
        (upsertWrite (fun _ => false) (pathStem "d.md")
          (renderAllFiles (fun _ => "0123456789abcdef0123456789abcdef") "origins" "d.md" "h" "T"
            [cleanCard]) [])).map Prod.fst
      ↔ "card_x.md" ∈ (upsertWrite (fun _ => false) (pathStem "d.md")
          (renderAllFiles (fun _ => "0123456789abcdef0123456789abcdef") "origins" "d.md" "h" "T"
            [cleanCard]) []).map Prod.fst :=
  (c6_idempotent_ids (fun _ => "0123456789abcdef0123456789abcdef") "origins" "d.md" "h" "T"
    [cleanCard] [cleanCard] [] (fun _ => false) rfl).2 "card_x.md"

/-! ## C5: coverage classification -/

theorem scanCards_none_iff (rel hash : String)
    (cs : List (String × Except String String)) :
    scanCards rel hash cs = none ↔ ∀ c ∈ cs, cardBad hash c = false := by
  induction cs with
  | nil => simp [scanCards]
  | cons c rest ih =>
    cases hc : c.2 with
    | error e =>
      simp only [scanCards, hc]
      constructor
      · intro h
        cases h
      · intro h
        have := h c (by simp)
        simp only [cardBad, hc] at this
        cases this
    | ok txt =>
      cases hx : extract_sha_from_md_card txt with
      | error pe =>
        simp only [scanCards, hc, hx]
        constructor
        · intro h
          cases h
        · intro h
          have := h c (by simp)
          simp only [cardBad, hc, hx] at this
          cases this
      | ok osha =>
        cases osha with
        | none =>
          simp only [scanCards, hc, hx]
          constructor
          · intro h
            cases h
          · intro h
            have := h c (by simp)
            simp only [cardBad, hc, hx] at this
            cases this
        | some sha =>
          by_cases hs : sha = hash
          · simp only [scanCards, hc, hx, if_pos hs]
            rw [ih]
            constructor
            · intro h d hd
              rcases List.mem_cons.mp hd with rfl | hd'
              · simp only [cardBad, hc, hx]
                simp [hs]
              · exact h d hd'
            · intro h d hd
              exact h d (List.mem_cons_of_mem _ hd)
          · simp only [scanCards, hc, hx, if_neg hs]
            constructor
            · intro h
              cases h
            · intro h
              have := h c (by simp)
              simp only [cardBad, hc, hx] at this
              simp [hs] at this

theorem cov_total_eq (cards : List (String × Except String String)) (inc : Bool)
    (origins : List (String × String)) :
    (kb_analyze_coverage cards inc origins).origins_total = origins.length := by
  induction origins with
  | nil => rfl
  | cons od rest ih =>
    simp only [kb_analyze_coverage]
    split_ifs
    · simp [ih]
    · rcases h : scanCards od.1 od.2
          (cards.filter (fun c => matchesCardPattern (pathStem od.1) c.1)) with _ | invs
      · simp [h, ih]
      · simp [h, ih]
    · simp [ih]

theorem cov_missing_eq (cards : List (String × Except String String)) (inc : Bool)
    (origins : List (String × String)) :
    (kb_analyze_coverage cards inc origins).missing
      = (origins.filter (fun od =>
          (cards.filter (fun c => matchesCardPattern (pathStem od.1) c.1)).isEmpty)).map
          Prod.fst := by
  induction origins with
  | nil => rfl
  | cons od rest ih =>
    simp only [kb_analyze_coverage, List.filter_cons]
    by_cases hm : (cards.filter (fun c => matchesCardPattern (pathStem od.1) c.1)).isEmpty
    · simp only [hm, if_true, List.map_cons]
      rw [← ih]
    · simp only [hm, if_false, Bool.false_eq_true]
      by_cases hinc : inc = true
      · subst hinc
        simp only [if_true]
        rcases h : scanCards od.1 od.2
            (cards.filter (fun c => matchesCardPattern (pathStem od.1) c.1)) with _ | invs
        · simpa using ih
        · simpa using ih
      · have : inc = false := by simpa using hinc
        subst this
        simpa using ih

theorem cov_stale_eq (cards : List (String × Except String String))
    (origins : List (String × String)) :
    (kb_analyze_coverage cards true origins).stale
      = (origins.filter (fun od =>
          !(cards.filter (fun c => matchesCardPattern (pathStem od.1) c.1)).isEmpty
          && (cards.filter (fun c => matchesCardPattern (pathStem od.1) c.1)).any
              (cardBad od.2))).map Prod.fst := by
  induction origins with
  | nil => rfl
  | cons od rest ih =>
    simp only [kb_analyze_coverage, List.filter_cons]
    by_cases hm : (cards.filter (fun c => matchesCardPattern (pathStem od.1) c.1)).isEmpty
    · simp only [hm, if_true, Bool.not_true, Bool.false_and, Bool.false_eq_true, if_false]
      exact ih
    · have hm' : (!(cards.filter (fun c => matchesCardPattern (pathStem od.1) c.1)).isEmpty)
          = true := by simpa using hm
      simp only [hm, Bool.false_eq_true, if_false, if_true, hm', Bool.true_and]
      rcases h : scanCards od.1 od.2
          (cards.filter (fun c => matchesCardPattern (pathStem od.1) c.1)) with _ | invs
      · have hall := (scanCards_none_iff od.1 od.2 _).mp h
        have hany : (cards.filter (fun c => matchesCardPattern (pathStem od.1) c.1)).any
            (cardBad od.2) = false := by
          rw [List.any_eq_false]
          intro x hx
          rw [hall x hx]
          simp
        simp [hany, ih]
      · have hany : (cards.filter (fun c => matchesCardPattern (pathStem od.1) c.1)).any
            (cardBad od.2) = true := by
          by_contra hb
          have hb' : (cards.filter (fun c => matchesCardPattern (pathStem od.1) c.1)).any
              (cardBad od.2) = false := by simpa using hb
          rw [List.any_eq_false] at hb'
          have : scanCards od.1 od.2
              (cards.filter (fun c => matchesCardPattern (pathStem od.1) c.1)) = none := by
            rw [scanCards_none_iff]
            intro c hc
            have := hb' c hc
            simpa using this
          rw [this] at h
          cases h
        simp [hany, ih]

theorem cov_invalid_eq (cards : List (String × Except String String))
    (origins : List (String × String)) :
    (kb_analyze_coverage cards true origins).invalid
      = origins.flatMap (fun od =>
          if (cards.filter (fun c => matchesCardPattern (pathStem od.1) c.1)).isEmpty then []
          else (scanCards od.1 od.2
            (cards.filter (fun c => matchesCardPattern (pathStem od.1) c.1))).getD []) := by
  induction origins with
  | nil => rfl
  | cons od rest ih =>
    simp only [kb_analyze_coverage, List.flatMap_cons]
    by_cases hm : (cards.filter (fun c => matchesCardPattern (pathStem od.1) c.1)).isEmpty
    · simp [hm, ih]
    · rcases h : scanCards od.1 od.2
          (cards.filter (fun c => matchesCardPattern (pathStem od.1) c.1)) with _ | invs
      · simp [hm, h, ih]
      · simp [hm, h, ih]

theorem cov_include_false (cards : List (String × Except String String))
    (origins : List (String × String)) :
    (kb_analyze_coverage cards false origins).stale = []
    ∧ (kb_analyze_coverage cards false origins).invalid = [] := by
  induction origins with
  | nil => exact ⟨rfl, rfl⟩
  | cons od rest ih =>
    simp only [kb_analyze_coverage]
    by_cases hm : (cards.filter (fun c => matchesCardPattern (pathStem od.1) c.1)).isEmpty
    · simpa [hm] using ih
    · simpa [hm] using ih

theorem mem_map_fst_filter_iff (origins : List (String × String))
    (p : String × String → Bool) (od : String × String)
    (hnd : (origins.map Prod.fst).Nodup) (hod : od ∈ origins) :
    od.1 ∈ (origins.filter p).map Prod.fst ↔ p od = true := by
  constructor
  · intro h
    rw [List.mem_map] at h
    obtain ⟨od', hod', heq⟩ := h
    rw [List.mem_filter] at hod'
    have : od' = od :=
      List.inj_on_of_nodup_map hnd hod'.1 hod heq
    rw [← this]
    exact hod'.2
  · intro h
    exact List.mem_map.mpr ⟨od, List.mem_filter.mpr ⟨hod, h⟩, rfl⟩

/-- C5 (amended): a document with zero matching card files is in `missing`;
with staleness checking enabled, a document with matches is in `stale` iff
some matching card file is "bad" — it raises on read, its fingerprint parse
raises (the label present with no token after it), it lacks a parsable
fingerprint (no label, or a token shorter than 32 characters), or its
fingerprint differs from the current one; per document the cards are
examined in order and examination stops at the first bad one, which yields
an `invalid` entry iff it raised (on read or in the parse); a document all
of whose matching card files carry the current fingerprint is in none of
the lists; with staleness checking disabled, `stale` and `invalid` are
empty. -/
theorem c5_coverage_amended (cards : List (String × Except String String))
    (origins : List (String × String))
    (hnd : (origins.map Prod.fst).Nodup) :
    (kb_analyze_coverage cards true origins).origins_total = origins.length
    ∧ (∀ od ∈ origins,
        (od.1 ∈ (kb_analyze_coverage cards true origins).missing ↔
          (cards.filter (fun c => matchesCardPattern (pathStem od.1) c.1)).isEmpty = true))
    ∧ (∀ od ∈ origins,
        (od.1 ∈ (kb_analyze_coverage cards true origins).stale ↔
          (cards.filter (fun c => matchesCardPattern (pathStem od.1) c.1)).isEmpty = false
          ∧ ∃ c ∈ cards.filter (fun c => matchesCardPattern (pathStem od.1) c.1),
              cardBad od.2 c = true))
    ∧ (∀ od ∈ origins,
        (cards.filter (fun c => matchesCardPattern (pathStem od.1) c.1)).isEmpty = false →
        (∀ c ∈ cards.filter (fun c => matchesCardPattern (pathStem od.1) c.1),
            cardBad od.2 c = false) →
        od.1 ∉ (kb_analyze_coverage cards true origins).missing
        ∧ od.1 ∉ (kb_analyze_coverage cards true origins).stale)
    ∧ ((kb_analyze_coverage cards false origins).stale = []
        ∧ (kb_analyze_coverage cards false origins).invalid = []) := by
  refine ⟨cov_total_eq cards true origins, ?_, ?_, ?_, cov_include_false cards origins⟩
  · intro od hod
    rw [cov_missing_eq]
    exact mem_map_fst_filter_iff origins _ od hnd hod
  · intro od hod
    rw [cov_stale_eq]
    rw [mem_map_fst_filter_iff origins _ od hnd hod]
    rw [Bool.and_eq_true, Bool.not_eq_true']
    constructor
    · rintro ⟨h1, h2⟩
      rw [List.any_eq_true] at h2
      exact ⟨h1, h2⟩
    · rintro ⟨h1, h2⟩
      rw [List.any_eq_true]
      exact ⟨h1, h2⟩
  · intro od hod hne hall
    refine ⟨?_, ?_⟩
    · rw [cov_missing_eq, mem_map_fst_filter_iff origins _ od hnd hod, hne]
      simp
    · rw [cov_stale_eq, mem_map_fst_filter_iff origins _ od hnd hod]
      intro hc
      rw [Bool.and_eq_true] at hc
      rw [List.any_eq_true] at hc
      obtain ⟨-, c, hcm, hcb⟩ := hc
      rw [hall c hcm] at hcb
      cases hcb

theorem c5_coverage_amended_witness :
    ("d.md", "h").1 ∈ (kb_analyze_coverage [] true [("d.md", "h")]).missing ↔
      (([] : List (String × Except String String)).filter
        (fun c => matchesCardPattern (pathStem ("d.md", "h").1) c.1)).isEmpty = true :=
  (c5_coverage_amended [] [("d.md", "h")] (by simp)).2.1 ("d.md", "h") (by simp)

/-- C5 counterexample to the claim as stated, in two parts.  First: a card
file whose fingerprint label is present but followed by no token lacks a
parsable fingerprint, yet the parse raises `IndexError` and the document is
recorded under `invalid` — "treated as stale, never as an error" is false.
Second: when the first matching card file is already bad (no label), the
scan `break`s and a later matching card file that raises on read is *not*
recorded under `invalid`. -/
theorem c5_coverage_counterexample :
    (kb_analyze_coverage [("card_x_d.md", Except.ok "source_sha256: ")] true
        [("d.md", "h")]).invalid
      = ["d.md: card_x_d.md: IndexError: list index out of range"]
    ∧ (kb_analyze_coverage [("card_x_d.md", Except.ok "source_sha256: ")] true
        [("d.md", "h")]).stale = ["d.md"]
    ∧ extract_sha_from_md_card "source_sha256: "
        = .error "IndexError: list index out of range"
    ∧ (kb_analyze_coverage [("card_1_e.md", Except.ok "no marker"),
        ("card_2_e.md", Except.error "OSError: disk")] true [("e.md", "h")]).invalid = []
    ∧ (kb_analyze_coverage [("card_1_e.md", Except.ok "no marker"),
        ("card_2_e.md", Except.error "OSError: disk")] true [("e.md", "h")]).stale
        = ["e.md"] :=
  ⟨rfl, rfl, rfl, rfl, rfl⟩

/-! ## C8: card file serialization -/

theorem lastOccTail_append_of_some (m xs ys t : List Char)
    (h : lastOccTail m ys = some t) : lastOccTail m (xs ++ ys) = some t := by
  induction xs with
  | nil => simpa using h
  | cons c cs ih =>
    simp only [List.cons_append, lastOccTail, List.append_eq, ih]

theorem lastOccTail_cons_none (m : List Char) (c : Char) (l : List Char)
    (h1 : lastOccTail m l = none) (h2 : m.isPrefixOf (c :: l) = false) :
    lastOccTail m (c :: l) = none := by
  simp only [lastOccTail, h1, h2]
  rfl

theorem lastOccTail_here (m rest : List Char) (hm : m ≠ [])
    (hnone : lastOccTail m (m.tail ++ rest) = none) :
    lastOccTail m (m ++ rest) = some rest := by
  cases m with
  | nil => exact absurd rfl hm
  | cons c m' =>
    simp only [List.tail_cons] at hnone
    have hpre : (c :: m').isPrefixOf (c :: m' ++ rest) = true := by
      rw [List.isPrefixOf_iff_prefix]
      exact ⟨rest, by simp⟩
    have hdrop : (c :: m' ++ rest).drop (c :: m').length = rest := by
      show ((c :: m') ++ rest).drop (c :: m').length = rest
      exact List.drop_left (c :: m') rest
    simp only [List.cons_append, lastOccTail, List.append_eq, hnone]
    simp only [List.cons_append] at hpre
    rw [hpre]
    simp only [if_true]
    simp only [List.cons_append] at hdrop
    rw [hdrop]

theorem prefix_mismatch_concrete (m a rest : List Char) (p : Nat)
    (hpa : p < a.length) (hpm : p < m.length) (hne : m.get? p ≠ a.get? p) :
    m.isPrefixOf (a ++ rest) = false := by
  by_contra h
  have h' : m.isPrefixOf (a ++ rest) = true := by simpa using h
  rw [List.isPrefixOf_iff_prefix, List.prefix_iff_eq_take] at h'
  apply hne
  rw [h', List.get?_take hpm, List.get?_append hpa]

theorem lastOccTail_eq_none_iff (m : List Char) (hm : m ≠ []) (l : List Char) :
    lastOccTail m l = none ↔ ∀ k, m.isPrefixOf (l.drop k) = false := by
  induction l with
  | nil =>
    have hie : m.isEmpty = false := by simpa [List.isEmpty_iff] using hm
    simp only [lastOccTail, hie, Bool.false_eq_true, if_false, List.drop_nil,
      true_iff]
    intro k
    cases m with
    | nil => exact absurd rfl hm
    | cons c m' => rfl
  | cons c cs ih =>
    constructor
    · intro h k
      simp only [lastOccTail] at h
      rcases hrec : lastOccTail m cs with _ | t
      · rw [hrec] at h
        by_cases hp : m.isPrefixOf (c :: cs) = true
        · rw [hp] at h
          simp at h
        · have hp' : m.isPrefixOf (c :: cs) = false := by
            rwa [Bool.not_eq_true] at hp
          cases k with
          | zero => exact hp'
          | succ k' => exact (ih.mp hrec) k'
      · rw [hrec] at h
        cases h
    · intro h
      simp only [lastOccTail]
      have hrec : lastOccTail m cs = none := ih.mpr (fun k => h (k + 1))
      rw [hrec]
      have h0 := h 0
      simp only [List.drop_zero] at h0
      rw [h0]
      rfl

/-- Python `str.isdigit`-style hex-digit test (the shape of a `sha256`
hexdigest character). -/
def isHexDigitChar (c : Char) : Bool :=
  c.isDigit || ('a' ≤ c && c ≤ 'f') || ('A' ≤ c && c ≤ 'F')

theorem hex_ne_s (c : Char) (h : isHexDigitChar c = true) : ¬ c = 's' := by
  intro heq
  subst heq
  exact absurd h (by decide)

theorem hex_not_space (c : Char) (h : isHexDigitChar c = true) :
    pyIsSpace c = false := by
  by_contra hs
  have hs' : pyIsSpace c = true := by rwa [Bool.not_eq_false] at hs
  unfold pyIsSpace at hs'
  simp only [Bool.or_eq_true, decide_eq_true_eq] at hs'
  rcases hs' with ((((h1 | h1) | h1) | h1) | h1) | h1 <;>
    (subst h1; exact absurd h (by decide))

theorem no_s_no_prefix (t l : List Char) (h : ∀ c ∈ l, ¬ c = 's') (k : Nat) :
    ('s' :: t).isPrefixOf (l.drop k) = false := by
  cases hd : l.drop k with
  | nil => rfl
  | cons d l' =>
    have hdl : d ∈ l := List.drop_subset k l (hd ▸ List.mem_cons_self d l')
    have hds : ('s' == d) = false := by
      simp only [beq_eq_false_iff_ne, ne_eq]
      intro hh
      exact (h d hdl) hh.symm
    simp [List.isPrefixOf, hds]

/-- The marker characters of `source_sha256:`. -/
def shaMarkerChars : List Char :=
  ['s', 'o', 'u', 'r', 'c', 'e', '_', 's', 'h', 'a', '2', '5', '6', ':']

theorem shaMarkerChars_eq : "source_sha256:".data = shaMarkerChars := by decide

theorem dropWhile_all_false (p : Char → Bool) (l : List Char)
    (h : ∀ c ∈ l, p c = false) : l.dropWhile p = l := by
  cases l with
  | nil => rfl
  | cons c cs =>
    rw [List.dropWhile_cons_of_neg]
    rw [h c (by simp)]
    simp

theorem stripChars_no_space (l : List Char)
    (h : ∀ c ∈ l, pyIsSpace c = false) : stripChars l = l := by
  unfold stripChars
  rw [dropWhile_all_false _ _ h,
    dropWhile_all_false _ _ (fun c hc => h c (List.mem_reverse.mp hc)),
    List.reverse_reverse]

theorem stripChars_footer (w : List Char) (hw : w ≠ [])
    (hns : ∀ c ∈ w, pyIsSpace c = false) :
    stripChars (' ' :: (w ++ (' ' :: '-' :: '-' :: '>' :: '\n' :: [])))
      = w ++ (' ' :: '-' :: '-' :: '>' :: []) := by
  obtain ⟨hd, tl, rfl⟩ : ∃ hd tl, w = hd :: tl := by
    cases w with
    | nil => exact absurd rfl hw
    | cons a b => exact ⟨a, b, rfl⟩
  unfold stripChars
  rw [List.dropWhile_cons_of_pos (by decide)]
  rw [show ((hd :: tl) ++ (' ' :: '-' :: '-' :: '>' :: '\n' :: []))
      = hd :: (tl ++ (' ' :: '-' :: '-' :: '>' :: '\n' :: [])) from rfl]
  rw [List.dropWhile_cons_of_neg (by simp [hns hd (by simp)])]
  have h2 : (hd :: (tl ++ (' ' :: '-' :: '-' :: '>' :: '\n' :: []))).reverse
      = '\n' :: '>' :: '-' :: '-' :: ' ' :: (hd :: tl).reverse := by
    simp
  rw [h2]
  rw [List.dropWhile_cons_of_pos (by decide)]
  rw [List.dropWhile_cons_of_neg (by decide)]
  simp

theorem splitWsAux_word (w : List Char) (hns : ∀ c ∈ w, pyIsSpace c = false) :
    ∀ (acc : List Char) (v : List Char), (acc ≠ [] ∨ w ≠ []) →
      splitWsAux (w ++ ' ' :: v) acc = (acc.reverse ++ w) :: splitWsAux v [] := by
  induction w with
  | nil =>
    intro acc v hne
    have ha : acc ≠ [] := by
      rcases hne with h | h
      · exact h
      · exact absurd rfl h
    have ha' : acc.isEmpty = false := by simpa [List.isEmpty_iff] using ha
    simp [splitWsAux, ha', show pyIsSpace ' ' = true from rfl]
  | cons c w' ih =>
    intro acc v hne
    have hc : pyIsSpace c = false := hns c (by simp)
    simp only [List.cons_append, splitWsAux, hc, Bool.false_eq_true, if_false,
      List.append_eq]
    rw [ih (fun d hd => hns d (by simp [hd])) (c :: acc) v (Or.inl (by simp))]
    simp

theorem splitWsChars_word (w v : List Char) (hw : w ≠ [])
    (hns : ∀ c ∈ w, pyIsSpace c = false) :
    splitWsChars (w ++ ' ' :: v) = w :: splitWsChars v := by
  unfold splitWsChars
  rw [splitWsAux_word w hns [] v (Or.inr hw)]
  simp

theorem parseShaTail_footer (hash : String) (hlen : 32 ≤ hash.length)
    (hhex : ∀ c ∈ hash.data, isHexDigitChar c = true) :
    parseShaTail (' ' :: (hash.data ++ (' ' :: '-' :: '-' :: '>' :: '\n' :: [])))
      = .ok (some hash) := by
  have hwne : hash.data ≠ [] := by
    intro h0
    have hz : hash.length = 0 := by
      show hash.data.length = 0
      rw [h0]
      rfl
    omega
  have hns : ∀ c ∈ hash.data, pyIsSpace c = false := fun c hc => hex_not_space c (hhex c hc)
  unfold parseShaTail
  rw [stripChars_footer hash.data hwne hns]
  rw [show (hash.data ++ (' ' :: '-' :: '-' :: '>' :: []))
      = hash.data ++ ' ' :: ('-' :: '-' :: '>' :: []) from rfl]
  rw [splitWsChars_word hash.data ('-' :: '-' :: '>' :: []) hwne hns]
  show Except.ok (if 32 ≤ (stripChars hash.data).length
      then some (⟨stripChars hash.data⟩ : String) else none) = Except.ok (some hash)
  rw [stripChars_no_space hash.data hns]
  rw [if_pos (show 32 ≤ hash.data.length from hlen)]

theorem extract_eq_parse (s : String) (t : List Char)
    (h : lastOccTail "source_sha256:".data s.data = some t) :
    extract_sha_from_md_card s = parseShaTail t := by
  unfold extract_sha_from_md_card
  rw [h]

theorem lastOccTail_footer (hash : String) (hlen : 32 ≤ hash.length)
    (hhex : ∀ c ∈ hash.data, isHexDigitChar c = true) :
    lastOccTail shaMarkerChars
        (shaMarkerChars ++ (' ' :: (hash.data ++ (' ' :: '-' :: '-' :: '>' :: '\n' :: []))))
      = some (' ' :: (hash.data ++ (' ' :: '-' :: '-' :: '>' :: '\n' :: []))) := by
  have hnos : ∀ c ∈ (' ' :: (hash.data ++ (' ' :: '-' :: '-' :: '>' :: '\n' :: []))),
      ¬ c = 's' := by
    intro c hc
    rcases List.mem_cons.mp hc with rfl | hc
    · decide
    · rcases List.mem_append.mp hc with hc | hc
      · exact hex_ne_s c (hhex c hc)
      · simp only [List.mem_cons, List.not_mem_nil, or_false] at hc
        rcases hc with rfl | rfl | rfl | rfl | rfl <;> decide
  have hrest : lastOccTail shaMarkerChars
      (' ' :: (hash.data ++ (' ' :: '-' :: '-' :: '>' :: '\n' :: []))) = none := by
    rw [lastOccTail_eq_none_iff shaMarkerChars (by decide)]
    intro k
    exact no_s_no_prefix ['o', 'u', 'r', 'c', 'e', '_', 's', 'h', 'a', '2', '5', '6', ':']
      _ hnos k
  have t13 := lastOccTail_cons_none shaMarkerChars ':' _ hrest
    (prefix_mismatch_concrete shaMarkerChars [':'] _ 0 (by decide) (by decide) (by decide))
  have t12 := lastOccTail_cons_none shaMarkerChars '6' _ t13
    (prefix_mismatch_concrete shaMarkerChars ['6', ':'] _ 0 (by decide) (by decide) (by decide))
  have t11 := lastOccTail_cons_none shaMarkerChars '5' _ t12
    (prefix_mismatch_concrete shaMarkerChars ['5', '6', ':'] _ 0 (by decide) (by decide)
      (by decide))
  have t10 := lastOccTail_cons_none shaMarkerChars '2' _ t11
    (prefix_mismatch_concrete shaMarkerChars ['2', '5', '6', ':'] _ 0 (by decide) (by decide)
      (by decide))
  have t9 := lastOccTail_cons_none shaMarkerChars 'a' _ t10
    (prefix_mismatch_concrete shaMarkerChars ['a', '2', '5', '6', ':'] _ 0 (by decide)
      (by decide) (by decide))
  have t8 := lastOccTail_cons_none shaMarkerChars 'h' _ t9
    (prefix_mismatch_concrete shaMarkerChars ['h', 'a', '2', '5', '6', ':'] _ 0 (by decide)
      (by decide) (by decide))
  have t7 := lastOccTail_cons_none shaMarkerChars 's' _ t8
    (prefix_mismatch_concrete shaMarkerChars ['s', 'h', 'a', '2', '5', '6', ':'] _ 1 (by decide)
      (by decide) (by decide))
  have t6 := lastOccTail_cons_none shaMarkerChars '_' _ t7
    (prefix_mismatch_concrete shaMarkerChars ['_', 's', 'h', 'a', '2', '5', '6', ':'] _ 0
      (by decide) (by decide) (by decide))
  have t5 := lastOccTail_cons_none shaMarkerChars 'e' _ t6
    (prefix_mismatch_concrete shaMarkerChars ['e', '_', 's', 'h', 'a', '2', '5', '6', ':'] _ 0
      (by decide) (by decide) (by decide))
  have t4 := lastOccTail_cons_none shaMarkerChars 'c' _ t5
    (prefix_mismatch_concrete shaMarkerChars ['c', 'e', '_', 's', 'h', 'a', '2', '5', '6', ':']
      _ 0 (by decide) (by decide) (by decide))
  have t3 := lastOccTail_cons_none shaMarkerChars 'r' _ t4
    (prefix_mismatch_concrete shaMarkerChars
      ['r', 'c', 'e', '_', 's', 'h', 'a', '2', '5', '6', ':'] _ 0 (by decide) (by decide)
      (by decide))
  have t2 := lastOccTail_cons_none shaMarkerChars 'u' _ t3
    (prefix_mismatch_concrete shaMarkerChars
      ['u', 'r', 'c', 'e', '_', 's', 'h', 'a', '2', '5', '6', ':'] _ 0 (by decide) (by decide)
      (by decide))
  have t1 := lastOccTail_cons_none shaMarkerChars 'o' _ t2
    (prefix_mismatch_concrete shaMarkerChars
      ['o', 'u', 'r', 'c', 'e', '_', 's', 'h', 'a', '2', '5', '6', ':'] _ 0 (by decide)
      (by decide) (by decide))
  exact lastOccTail_here shaMarkerChars _ (by decide) t1

theorem extract_of_footer (P hash : String) (hlen : 32 ≤ hash.length)
    (hhex : ∀ c ∈ hash.data, isHexDigitChar c = true) :
    extract_sha_from_md_card (P ++ " source_sha256: " ++ hash ++ " -->\n")
      = .ok (some hash) := by
  have hdata : (P ++ " source_sha256: " ++ hash ++ " -->\n").data
      = (P.data ++ [' ']) ++ (shaMarkerChars ++
          (' ' :: (hash.data ++ (' ' :: '-' :: '-' :: '>' :: '\n' :: [])))) := by
    have h1 : (" source_sha256: ").data = ' ' :: (shaMarkerChars ++ [' ']) := by decide
    have h2 : (" -->\n").data = ' ' :: '-' :: '-' :: '>' :: '\n' :: [] := by decide
    simp only [String.data_append, h1, h2]
    simp [shaMarkerChars, List.append_assoc]
  have hocc : lastOccTail "source_sha256:".data
      (P ++ " source_sha256: " ++ hash ++ " -->\n").data
      = some (' ' :: (hash.data ++ (' ' :: '-' :: '-' :: '>' :: '\n' :: []))) := by
    rw [hdata, shaMarkerChars_eq]
    exact lastOccTail_append_of_some _ _ _ _ (lastOccTail_footer hash hlen hhex)
  rw [extract_eq_parse _ _ hocc]
  exact parseShaTail_footer hash hlen hhex

theorem leadIn_prefix (x : String) :
    pyStartsWith (pyLower ("Документ содержит информацию о " ++ x ++ "."))
      leadInLower = true := by
  have hdata : (pyLower ("Документ содержит информацию о " ++ x ++ ".")).data
      = leadInLower.data ++ (' ' :: (x.data.map pyLowerChar ++ ['.'])) := by
    show (("Документ содержит информацию о " ++ x ++ ".").data).map pyLowerChar = _
    simp only [String.data_append, List.map_append]
    have h1 : "Документ содержит информацию о ".data.map pyLowerChar
        = leadInLower.data ++ [' '] := by decide
    have h2 : ".".data.map pyLowerChar = ['.'] := by decide
    rw [h1, h2]
    simp [List.append_assoc]
  show leadInLower.data.isPrefixOf (pyLower
      ("Документ содержит информацию о " ++ x ++ ".")).data = true
  rw [hdata, List.isPrefixOf_iff_prefix]
  exact List.prefix_append _ _

/-- C8 (corrected): every written card file has exactly the fixed textual
layout `-- <description> --`, blank line, stripped body, blank line, and a
single trailing provenance comment `<!-- source: <dir>/<rel>
source_sha256: <hex-digest> -->`, and the coverage scanner recovers exactly
the source fingerprint back from that file; and whenever the stripped
description is non-empty, the written description begins
(case-insensitively) with the fixed lead-in clause. The lead-in guarantee
does not extend to an all-whitespace description, which is written empty. -/
theorem c8_card_serialization_amended (originsDirName rel hash : String) (rc : Card)
    (hlen : 32 ≤ hash.length)
    (hhex : ∀ c ∈ hash.data, isHexDigitChar c = true) :
    renderCardBody originsDirName rel hash rc
      = "-- " ++ normalizeDescription rc.description ++ " --\n\n"
          ++ pyStrip rc.content_md ++ "\n\n<!-- source: " ++ originsDirName ++ "/" ++ rel
          ++ " source_sha256: " ++ hash ++ " -->\n"
    ∧ extract_sha_from_md_card (renderCardBody originsDirName rel hash rc) = .ok (some hash)
    ∧ (pyStrip rc.description ≠ "" →
        pyStartsWith (pyLower (normalizeDescription rc.description)) leadInLower = true) := by
  refine ⟨rfl, ?_, ?_⟩
  · exact extract_of_footer
      ("-- " ++ normalizeDescription rc.description ++ " --\n\n"
        ++ pyStrip rc.content_md ++ "\n\n<!-- source: " ++ originsDirName ++ "/" ++ rel)
      hash hlen hhex
  · intro hne
    by_cases hp : pyStartsWith (pyLower (pyStrip rc.description)) leadInLower = true
    · have hid : normalizeDescription rc.description = pyStrip rc.description := by
        simp [normalizeDescription, hp]
      rw [hid]
      exact hp
    · have hds : normalizeDescription rc.description
          = "Документ содержит информацию о "
              ++ pyRstripDot (pyStrip rc.description) ++ "." := by
        simp [normalizeDescription, hne, hp]
      rw [hds]
      exact leadIn_prefix (pyRstripDot (pyStrip rc.description))

/-- C8 counterexample: a draft card whose description is all whitespace is
written with an empty description between the `--` delimiters — the fixed
lead-in clause is not prepended — so the claim that every written
description begins with the lead-in whenever the generator omitted it is
false. -/
theorem c8_counterexample :
    normalizeDescription "  " = ""
    ∧ pyStartsWith (pyLower (normalizeDescription "  ")) leadInLower = false
    ∧ renderCardBody "origins" "a.md" "h"
        { title := "t", description := "  ", content_md := "Body",
          key_terms := [], entities := [] }
      = "--  --\n\nBody\n\n<!-- source: origins/a.md source_sha256: h -->\n" :=
  ⟨rfl, by decide, rfl⟩

/-- Witness for C8: layout equality, fingerprint roundtrip and lead-in
guarantee at a concrete card and a concrete 64-character hex digest. -/
theorem c8_card_serialization_amended_witness :
    renderCardBody "origins" "notes/a.md"
        "0123456789abcdef0123456789abcdef0123456789abcdef0123456789abcdef"
        { title := "T", description := "планах команды", content_md := "Body",
          key_terms := [], entities := [] }
      = "-- " ++ normalizeDescription "планах команды" ++ " --\n\n"
          ++ pyStrip "Body" ++ "\n\n<!-- source: " ++ "origins" ++ "/" ++ "notes/a.md"
          ++ " source_sha256: "
          ++ "0123456789abcdef0123456789abcdef0123456789abcdef0123456789abcdef" ++ " -->\n"
    ∧ extract_sha_from_md_card (renderCardBody "origins" "notes/a.md"
        "0123456789abcdef0123456789abcdef0123456789abcdef0123456789abcdef"
        { title := "T", description := "планах команды", content_md := "Body",
          key_terms := [], entities := [] })
      = .ok (some "0123456789abcdef0123456789abcdef0123456789abcdef0123456789abcdef")
    ∧ (pyStrip "планах команды" ≠ "" →
        pyStartsWith (pyLower (normalizeDescription "планах команды")) leadInLower = true) :=
  c8_card_serialization_amended "origins" "notes/a.md"
    "0123456789abcdef0123456789abcdef0123456789abcdef0123456789abcdef"
    { title := "T", description := "планах команды", content_md := "Body",
      key_terms := [], entities := [] }
    (by decide) (by decide)
